import Mathlib

/-!
# Anymote: wire adapter and device session

A shallow embedding of

* `ProtobufWireAdapter` (src/cpp/src/anymote/wire/protobufwireadapter.cc, with the
  base class `WireAdapter` of wireadapter.h), the framing layer that writes and reads
  messages with a varint32 length preamble, and
* `DeviceSession::OnMessage` (src/cpp/src/anymote/device/devicesession.cc), the
  classification of inbound messages.

Every method becomes a function from the object's fields to the new fields together with
the list of calls it makes on its collaborators (the `WireInterface`, the
`MessageListener`, the `AnymoteListener`), in the order in which they are made. A method
that begins with a glog `CHECK` returns `none` where the check aborts the process.

Machine integers are natural numbers; a reduction modulo `2 ^ 32` or `256` is written
wherever the C++ type can wrap. A byte is an element of `Fin 256`.
-/

namespace anymote

/-- One `uint8_t`. -/
abbrev Byte := Fin 256

/-! ## Messages (accessor view of the generated protocol buffer classes) -/

/-- Modelled from the spec: the generated class `messages::Data` (remote.pb.h) is not
under src/. The fields are what the accessors `type()` and `data()` return. -/
structure Data where
  type : String
  data : String
deriving DecidableEq

/-- Modelled from the spec: the generated enum `messages::FlingResult_Result` is not under
src/. The source names only `FlingResult_Result_SUCCESS`; every other value is a failure
for `DeviceSession::OnMessage`. -/
inductive FlingResult_Result where
  | SUCCESS
  | FAILURE
deriving DecidableEq

/-- Modelled from the spec: the generated class `messages::FlingResult`; `result` is what
the accessor `result()` returns. -/
structure FlingResult where
  result : FlingResult_Result
deriving DecidableEq

/-- Modelled from the spec: the generated class `messages::ResponseMessage`. A field is
`some` exactly when the matching `has_..._message()` is true. -/
structure ResponseMessage where
  data_message : Option Data
  fling_result_message : Option FlingResult
deriving DecidableEq

/-- Modelled from the spec: `messages::KeyEvent`, with the enum values as numbers. -/
structure KeyEvent where
  keycode : Nat
  action : Nat
deriving DecidableEq

/-- Modelled from the spec: `messages::MouseEvent`. -/
structure MouseEvent where
  x_delta : Int
  y_delta : Int
deriving DecidableEq

/-- Modelled from the spec: `messages::MouseWheel`. -/
structure MouseWheel where
  x_scroll : Int
  y_scroll : Int
deriving DecidableEq

/-- Modelled from the spec: `messages::Connect`. -/
structure Connect where
  device_name : String
  version : Int
deriving DecidableEq

/-- Modelled from the spec: `messages::Fling`. -/
structure Fling where
  uri : String
deriving DecidableEq

/-- Modelled from the spec: the generated class `messages::RequestMessage`. A field is
`some` once the matching `mutable_..._message()` has been called. -/
structure RequestMessage where
  key_event_message : Option KeyEvent
  mouse_event_message : Option MouseEvent
  mouse_wheel_message : Option MouseWheel
  data_message : Option Data
  connect_message : Option Connect
  fling_message : Option Fling
deriving DecidableEq

/-- Modelled from the spec: the generated class `messages::RemoteMessage`.
`sequence_number` is `some n` exactly when `has_sequence_number()` is true, and then
`sequence_number()` returns `n` (a `uint32`). -/
structure RemoteMessage where
  sequence_number : Option Nat
  request_message : Option RequestMessage
  response_message : Option ResponseMessage
deriving DecidableEq

/-- The default instance that `message.response_message()` returns when the field is
not set: no data message and no fling result. -/
def ResponseMessage.default_instance : ResponseMessage :=
  { data_message := none, fling_result_message := none }

/-- The serialiser and the parser of `RemoteMessage`, generated from the message schema
and linked against the protocol buffer runtime; neither is under src/, so both are
parameters. `ParseFromArray` returns the success flag together with the message object
as the parser leaves it. -/
structure ProtobufRuntime where
  SerializeToCodedStream : RemoteMessage → List Byte
  ParseFromArray : List Byte → Bool × RemoteMessage

/-- Modelled from the spec: `message.ByteSize()` of the generated class, the number of
bytes the serialiser writes. The C++ result type is `int`, so the embedding is exact for
sizes below `2 ^ 31`. -/
def ProtobufRuntime.ByteSize (pb : ProtobufRuntime) (message : RemoteMessage) : Nat :=
  (pb.SerializeToCodedStream message).length

/-! ## Varint32 output (`CodedOutputStream`) -/

/-- Modelled from the spec: `CodedOutputStream::VarintSize32` of the protocol buffer
runtime (not under src/): the number of bytes of the base-128 encoding of a `uint32`. -/
def VarintSize32 (value : Nat) : Nat :=
  let value := value % 2 ^ 32
  if value < 2 ^ 7 then 1
  else if value < 2 ^ 14 then 2
  else if value < 2 ^ 21 then 3
  else if value < 2 ^ 28 then 4
  else 5

/-- Modelled from the spec: the loop of `CodedOutputStream::WriteVarint32` (protocol
buffer runtime, not under src/), unrolled: while the value is at least `0x80`, emit
`static_cast<uint8>(value | 0x80)` and shift right by 7; then emit the value. A `uint32`
leaves the loop after at most four rounds. -/
def WriteVarint32.loop : Nat → Nat → List Byte
  | 0, value => [Fin.ofNat value]
  | rounds + 1, value =>
    if value ≥ 0x80 then
      Fin.ofNat (value ||| 0x80) :: WriteVarint32.loop rounds (value >>> 7)
    else
      [Fin.ofNat value]

/-- Modelled from the spec: `CodedOutputStream::WriteVarint32` of the protocol buffer
runtime (not under src/): groups of 7 bits, least significant group first, the high bit
of a byte set when more bytes follow. The argument is converted to `uint32`. -/
def WriteVarint32 (value : Nat) : List Byte :=
  WriteVarint32.loop 4 (value % 2 ^ 32)

/-- Modelled from the spec: `ArrayOutputStream` and `CodedOutputStream` of the protocol
buffer runtime (not under src/), over `std::vector<uint8_t> buffer(size)`: a vector of
`size` zero bytes whose front is overwritten by `bytes`, the stream stopping at the end
of the array. -/
def ArrayOutputStream (size : Nat) (bytes : List Byte) : List Byte :=
  (bytes ++ List.replicate (size - bytes.length) 0).take size

/-! ## `ProtobufWireAdapter` -/

/-- The enum `ProtobufWireAdapter::ReadState`. -/
inductive ReadState where
  | kNone
  | kPreamble
  | kMessage
deriving DecidableEq

/-- A call made by the adapter on a collaborator: `Send` and `Receive` on the
`WireInterface`, `OnMessage` and `OnError` on the `MessageListener`. -/
inductive WireCall where
  | Send (data : List Byte)
  | Receive (num_bytes : Nat)
  | OnMessage (message : RemoteMessage)
  | OnError
deriving DecidableEq

/-- The fields of a `ProtobufWireAdapter`, those of the base class `WireAdapter`
included. `listener_` records whether the listener pointer is non-NULL, `preamble_` is a
`uint32_t` and `preamble_num_bytes_` a `uint8_t`. -/
structure ProtobufWireAdapter where
  listener_ : Bool
  initialized_ : Bool
  read_state_ : ReadState
  preamble_ : Nat
  preamble_num_bytes_ : Nat
deriving DecidableEq

namespace ProtobufWireAdapter

/-- The constructor: no listener, not initialised, `kNone`, both preamble fields 0. -/
def new : ProtobufWireAdapter :=
  { listener_ := false, initialized_ := false, read_state_ := ReadState.kNone,
    preamble_ := 0, preamble_num_bytes_ := 0 }

/-- The method `WireAdapter::set_listener`, called with a non-NULL listener. -/
def set_listener (a : ProtobufWireAdapter) : ProtobufWireAdapter :=
  { a with listener_ := true }

/-- The method `ProtobufWireAdapter::GetNextMessage`. -/
def GetNextMessage (a : ProtobufWireAdapter) : ProtobufWireAdapter × List WireCall :=
  if a.read_state_ ≠ ReadState.kNone then
    (a, [])
  else
    ({ a with read_state_ := ReadState.kPreamble }, [WireCall.Receive 1])

/-- The method `WireAdapter::Init`; `none` when `CHECK(!initialized_)` fails. -/
def Init (a : ProtobufWireAdapter) : Option (ProtobufWireAdapter × List WireCall) :=
  if a.initialized_ then
    none
  else
    let r := a.GetNextMessage
    some ({ r.1 with initialized_ := true }, r.2)

/-- The method `ProtobufWireAdapter::SendMessage`; `none` when `CHECK(initialized())`
fails. In the source `message_size` and `size` are `int`: the sum
`VarintSize32(message_size) + message_size` is computed here without wrapping, so the
embedding is exact when that sum is below `2 ^ 31` (for a serialised size of
`2 ^ 31 - 5` or more the sum overflows `int` in the source and the buffer is not the one
computed here). The theorems about the buffer that is sent carry that bound. -/
def SendMessage (pb : ProtobufRuntime) (a : ProtobufWireAdapter) (message : RemoteMessage) :
    Option (ProtobufWireAdapter × List WireCall) :=
  if !a.initialized_ then
    none
  else
    let message_size := pb.ByteSize message
    let size := VarintSize32 message_size + message_size
    let buffer := ArrayOutputStream size
      (WriteVarint32 message_size ++ pb.SerializeToCodedStream message)
    some (a, [WireCall.Send buffer])

/-- The method `ProtobufWireAdapter::OnError`. -/
def OnError (a : ProtobufWireAdapter) : ProtobufWireAdapter × List WireCall :=
  if a.listener_ then (a, [WireCall.OnError]) else (a, [])

/-- The method `ProtobufWireAdapter::ParseMessage`: the result flag of `ParseFromArray` is not
looked at. -/
def ParseMessage (pb : ProtobufRuntime) (a : ProtobufWireAdapter) (data : List Byte) :
    ProtobufWireAdapter × List WireCall :=
  let message := (pb.ParseFromArray data).2
  if a.listener_ then (a, [WireCall.OnMessage message]) else (a, [])

/-- The method `ProtobufWireAdapter::HandlePreambleByte`. The shifted group is an `int` that is
converted to `uint32_t` on assignment, hence the reduction modulo `2 ^ 32`. A shift count
of 32 or more (from the sixth byte on) is undefined in C++; the compiled code shifts a
32-bit operand by the count modulo 32, and so does the embedding. Up to the fifth byte
the count is at most 28 and the reduction of the count changes nothing. -/
def HandlePreambleByte (a : ProtobufWireAdapter) (byte : Byte) :
    ProtobufWireAdapter × List WireCall :=
  let preamble :=
    a.preamble_ ||| (((byte.val &&& 0x7F) <<< (a.preamble_num_bytes_ * 7 % 32)) % 2 ^ 32)
  let num_bytes := (a.preamble_num_bytes_ + 1) % 256
  if byte.val &&& 0x80 = 0 then
    let message_size := preamble
    ({ a with preamble_ := 0, preamble_num_bytes_ := 0, read_state_ := ReadState.kMessage },
      [WireCall.Receive message_size])
  else
    let a1 := { a with preamble_ := preamble, preamble_num_bytes_ := num_bytes }
    if num_bytes ≥ 5 then
      a1.OnError
    else
      (a1, [WireCall.Receive 1])

/-- The method `ProtobufWireAdapter::OnBytesReceived`. -/
def OnBytesReceived (pb : ProtobufRuntime) (a : ProtobufWireAdapter) (data : List Byte) :
    ProtobufWireAdapter × List WireCall :=
  if a.read_state_ = ReadState.kMessage then
    let a1 := { a with read_state_ := ReadState.kNone }
    let r2 := a1.ParseMessage pb data
    let r3 := r2.1.GetNextMessage
    (r3.1, r2.2 ++ r3.2)
  else
    match a.read_state_, data with
    | ReadState.kPreamble, [byte] => a.HandlePreambleByte byte
    | _, _ => a.OnError

/-- The transport answering receive requests: `OnBytesReceived` is called once per
chunk, in order; the calls made by the adapter are concatenated. -/
def deliver (pb : ProtobufRuntime) (a : ProtobufWireAdapter) :
    List (List Byte) → ProtobufWireAdapter × List WireCall
  | [] => (a, [])
  | data :: rest =>
    let r1 := a.OnBytesReceived pb data
    let r2 := deliver pb r1.1 rest
    (r2.1, r1.2 ++ r2.2)

/-- The adapter states that arise from the constructor through calls of the public
methods, whatever their arguments. -/
inductive Reachable : ProtobufWireAdapter → Prop where
  | new : Reachable ProtobufWireAdapter.new
  | set_listener {a : ProtobufWireAdapter} : Reachable a → Reachable a.set_listener
  | Init {a r : ProtobufWireAdapter} {cs : List WireCall} :
      Reachable a → a.Init = some (r, cs) → Reachable r
  | SendMessage {a r : ProtobufWireAdapter} {cs : List WireCall} (pb : ProtobufRuntime)
      (message : RemoteMessage) :
      Reachable a → a.SendMessage pb message = some (r, cs) → Reachable r
  | OnBytesReceived {a : ProtobufWireAdapter} (pb : ProtobufRuntime) (data : List Byte) :
      Reachable a → Reachable (a.OnBytesReceived pb data).1
  | OnError {a : ProtobufWireAdapter} : Reachable a → Reachable a.OnError.1

end ProtobufWireAdapter

/-- The sizes of the receive requests among a list of calls, in order. -/
def requestedSizes (calls : List WireCall) : List Nat :=
  calls.filterMap fun c =>
    match c with
    | WireCall.Receive n => some n
    | _ => none

/-- A buffer cut into chunks: each of the first `k` bytes as a chunk of its own, then the
rest of the buffer as one chunk. -/
def preambleChunks (k : Nat) (buffer : List Byte) : List (List Byte) :=
  (buffer.take k).map (fun b => [b]) ++ [buffer.drop k]

/-! ## Base-128 length encoding, as the specification words it -/

/-- The value `sum of (b_i & 0x7F) * 128 ^ i` of a list of bytes `b_0, b_1, ...`. -/
def varintValue : List Byte → Nat
  | [] => 0
  | b :: bs => (b.val &&& 0x7F) + 128 * varintValue bs

/-- The value an `int32_t` holds after an arithmetic result `x` is stored in it, with
two's complement wrap-around (signed overflow itself is undefined in C++). -/
def int32_t (x : Int) : Int :=
  (x + 2 ^ 31) % 2 ^ 32 - 2 ^ 31

/-- A default-constructed `RequestMessage`: no field is set. -/
def RequestMessage.default_instance : RequestMessage :=
  { key_event_message := none, mouse_event_message := none, mouse_wheel_message := none,
    data_message := none, connect_message := none, fling_message := none }

/-- The object a `MessageListener*` points to: the `DeviceSession` that makes the call
(`this` in one of its methods, the session being a `MessageListener`), or another
listener object, told apart by its address. -/
inductive MessageListenerPtr where
  | self
  | other (address : Nat)
deriving DecidableEq

/-- A call made by the session on a collaborator: `set_listener`, `Init` and
`SendMessage` on the `WireAdapter`, the four callbacks on the `AnymoteListener`.
`set_listener` carries the listener that is passed. -/
inductive SessionCall where
  | set_listener (listener : MessageListenerPtr)
  | Init
  | SendMessage (message : RemoteMessage)
  | OnAck
  | OnData (type : String) (data : String)
  | OnFlingResult (success : Bool) (sequence_number : Nat)
  | OnError
deriving DecidableEq

/-- The mutable field of a `DeviceSession`; the adapter and the listener pointers are
fixed and non-NULL by the constructor. `ping_counter_` is an `int32_t`. -/
structure DeviceSession where
  ping_counter_ : Int
deriving DecidableEq

namespace DeviceSession

/-- The constructor: the ping counter starts at 0. -/
def new : DeviceSession :=
  { ping_counter_ := 0 }

/-- The method `DeviceSession::OnMessage`. -/
def OnMessage (s : DeviceSession) (message : RemoteMessage) : DeviceSession × List SessionCall :=
  let response := message.response_message.getD ResponseMessage.default_instance
  let sequence_number : Nat :=
    match message.sequence_number with
    | some n => n
    | none => 0
  let r1 : Bool × List SessionCall :=
    match response.data_message with
    | some data => (false, [SessionCall.OnData data.type data.data])
    | none => (true, [])
  let r2 : Bool × List SessionCall :=
    match response.fling_result_message with
    | some fling_result =>
      let success := decide (fling_result.result = FlingResult_Result.SUCCESS)
      (false, r1.2 ++ [SessionCall.OnFlingResult success sequence_number])
    | none => r1
  if r2.1 && sequence_number ≠ 0 then
    (s, r2.2 ++ [SessionCall.OnAck])
  else
    (s, r2.2)

/-- The method `DeviceSession::OnError`. -/
def OnError (s : DeviceSession) : DeviceSession × List SessionCall :=
  (s, [SessionCall.OnError])

/-- The method `DeviceSession::StartSession`: `adapter_->set_listener(this)` and then
`adapter_->Init()`. -/
def StartSession (s : DeviceSession) : DeviceSession × List SessionCall :=
  (s, [SessionCall.set_listener MessageListenerPtr.self, SessionCall.Init])

/-- The method `DeviceSession::SendRequestWithSequence`; `none` when
`CHECK_GE(sequence_number, 0)` fails, which is before any call is made. The argument of
`set_sequence_number` is converted from `int32_t` to `uint32`. -/
def SendRequestWithSequence (s : DeviceSession) (request : RequestMessage)
    (sequence_number : Int) : Option (DeviceSession × List SessionCall) :=
  if sequence_number < 0 then
    none
  else
    let message : RemoteMessage :=
      { sequence_number := none, request_message := none, response_message := none }
    let message :=
      if sequence_number ≠ 0 then
        { message with sequence_number := some (sequence_number % 2 ^ 32).toNat }
      else
        message
    let message := { message with request_message := some request }
    some (s, [SessionCall.SendMessage message])

/-- The method `DeviceSession::SendRequest`. -/
def SendRequest (s : DeviceSession) (request : RequestMessage) :
    Option (DeviceSession × List SessionCall) :=
  s.SendRequestWithSequence request 0

/-- The method `DeviceSession::SendPing`: the request is a default-constructed
`RequestMessage`, the sequence number is `++ping_counter_`. -/
def SendPing (s : DeviceSession) : Option (DeviceSession × List SessionCall) :=
  let request := RequestMessage.default_instance
  let s1 : DeviceSession := { s with ping_counter_ := int32_t (s.ping_counter_ + 1) }
  s1.SendRequestWithSequence request s1.ping_counter_

/-- The method `DeviceSession::SendKeyEvent`. -/
def SendKeyEvent (s : DeviceSession) (keycode : Nat) (action : Nat) :
    Option (DeviceSession × List SessionCall) :=
  let request := RequestMessage.default_instance
  let request := { request with key_event_message := some { keycode := keycode, action := action } }
  s.SendRequest request

/-- The method `DeviceSession::SendMouseMove`. -/
def SendMouseMove (s : DeviceSession) (x_delta : Int) (y_delta : Int) :
    Option (DeviceSession × List SessionCall) :=
  let request := RequestMessage.default_instance
  let request :=
    { request with mouse_event_message := some { x_delta := x_delta, y_delta := y_delta } }
  s.SendRequest request

/-- The method `DeviceSession::SendMouseWheel`. -/
def SendMouseWheel (s : DeviceSession) (x_scroll : Int) (y_scroll : Int) :
    Option (DeviceSession × List SessionCall) :=
  let request := RequestMessage.default_instance
  let request :=
    { request with mouse_wheel_message := some { x_scroll := x_scroll, y_scroll := y_scroll } }
  s.SendRequest request

/-- The method `DeviceSession::SendData`. -/
def SendData (s : DeviceSession) (type : String) (data : String) :
    Option (DeviceSession × List SessionCall) :=
  let request := RequestMessage.default_instance
  let request := { request with data_message := some { type := type, data := data } }
  s.SendRequest request

/-- The method `DeviceSession::SendConnect`. -/
def SendConnect (s : DeviceSession) (device_name : String) (version : Int) :
    Option (DeviceSession × List SessionCall) :=
  let request := RequestMessage.default_instance
  let request :=
    { request with connect_message := some { device_name := device_name, version := version } }
  s.SendRequest request

/-- The method `DeviceSession::SendFling`. -/
def SendFling (s : DeviceSession) (uri : String) (sequence_number : Int) :
    Option (DeviceSession × List SessionCall) :=
  let request := RequestMessage.default_instance
  let request := { request with fling_message := some { uri := uri } }
  s.SendRequestWithSequence request sequence_number

/-- A number of consecutive `SendPing` calls: the calls made on the adapter are
concatenated; `none` as soon as one of the calls aborts. -/
def SendPingTimes : Nat → DeviceSession → Option (DeviceSession × List SessionCall)
  | 0, s => some (s, [])
  | m + 1, s =>
    match s.SendPing with
    | none => none
    | some (s1, calls1) =>
      match SendPingTimes m s1 with
      | none => none
      | some (s2, calls2) => some (s2, calls1 ++ calls2)

end DeviceSession

/-! ## A session over a `ProtobufWireAdapter` -/

namespace ProtobufWireAdapter

/-- One call of the session carried out on the adapter it owns: the three adapter
methods act on the adapter, the callbacks on the `AnymoteListener` do not reach it.
The result is `none` when a `CHECK` of the adapter aborts. -/
def perform (pb : ProtobufRuntime) (a : ProtobufWireAdapter) :
    SessionCall → Option (ProtobufWireAdapter × List WireCall)
  | SessionCall.set_listener _ => some (a.set_listener, [])
  | SessionCall.Init => a.Init
  | SessionCall.SendMessage message => a.SendMessage pb message
  | _ => some (a, [])

/-- The calls of the session carried out in order: the adapter left at the end (`none`
after an abort) and the calls made on the interface and the message listener until
then. -/
def performAll (pb : ProtobufRuntime) :
    ProtobufWireAdapter → List SessionCall → Option ProtobufWireAdapter × List WireCall
  | a, [] => (some a, [])
  | a, call :: rest =>
    match a.perform pb call with
    | none => (none, [])
    | some (a1, calls1) =>
      let r := performAll pb a1 rest
      (r.1, calls1 ++ r.2)

/-- The target of the adapter's pointer `listener_` after the calls of the session were
carried out in order, from its target before them (`none` for NULL). The field
`listener_` of the embedding records whether the pointer is set; its target is followed
here: `WireAdapter::set_listener` stores its argument (`listener_ = listener`), no other
call assigns the pointer, and after an abort the pointer is as the last completed call
left it. -/
def listenerAfter (pb : ProtobufRuntime) :
    ProtobufWireAdapter → Option MessageListenerPtr → List SessionCall →
      Option MessageListenerPtr
  | _, listener, [] => listener
  | a, listener, call :: rest =>
    match a.perform pb call with
    | none => listener
    | some (a1, _) =>
      match call with
      | SessionCall.set_listener l => listenerAfter pb a1 (some l) rest
      | _ => listenerAfter pb a1 listener rest

end ProtobufWireAdapter

/-- The number of receive requests among a list of calls. -/
def receiveCount (calls : List WireCall) : Nat :=
  (requestedSizes calls).length

/-! ## Runs of a session and of an adapter -/

/-- One of the seven send operations of a `DeviceSession`, with its arguments. -/
inductive SendOperation where
  | Ping
  | KeyEvent (keycode : Nat) (action : Nat)
  | MouseMove (x_delta : Int) (y_delta : Int)
  | MouseWheel (x_scroll : Int) (y_scroll : Int)
  | Data (type : String) (data : String)
  | Connect (device_name : String) (version : Int)
  | Fling (uri : String) (sequence_number : Int)
deriving DecidableEq

/-- The sequence number argument of a fling is a value of its C++ type `int32_t`. -/
def SendOperation.fits_int32 : SendOperation → Bool
  | SendOperation.Fling _ sequence_number =>
    decide (-2147483648 ≤ sequence_number) && decide (sequence_number < 2147483648)
  | _ => true

namespace DeviceSession

/-- The method of the session that a send operation names, applied to its arguments. -/
def send (s : DeviceSession) : SendOperation → Option (DeviceSession × List SessionCall)
  | SendOperation.Ping => s.SendPing
  | SendOperation.KeyEvent keycode action => s.SendKeyEvent keycode action
  | SendOperation.MouseMove x_delta y_delta => s.SendMouseMove x_delta y_delta
  | SendOperation.MouseWheel x_scroll y_scroll => s.SendMouseWheel x_scroll y_scroll
  | SendOperation.Data type data => s.SendData type data
  | SendOperation.Connect device_name version => s.SendConnect device_name version
  | SendOperation.Fling uri sequence_number => s.SendFling uri sequence_number

/-- A sequence of send operations carried out in order: the session left at the end
(`none` after an abort) and the calls made until then. -/
def sendAll : DeviceSession → List SendOperation → Option DeviceSession × List SessionCall
  | s, [] => (some s, [])
  | s, operation :: rest =>
    match s.send operation with
    | none => (none, [])
    | some (s1, calls1) =>
      let r := sendAll s1 rest
      (r.1, calls1 ++ r.2)

end DeviceSession

/-- The messages handed to the adapter through `SendMessage` among a list of session
calls, in order. -/
def sentMessages (calls : List SessionCall) : List RemoteMessage :=
  calls.filterMap fun c =>
    match c with
    | SessionCall.SendMessage message => some message
    | _ => none

/-- The messages dispatched through `OnMessage` among a list of calls, in order. -/
def dispatchedMessages (calls : List WireCall) : List RemoteMessage :=
  calls.filterMap fun c =>
    match c with
    | WireCall.OnMessage message => some message
    | _ => none

/-- The bytes handed to the interface through `Send` among a list of calls, in order. -/
def sentBytes (calls : List WireCall) : List Byte :=
  calls.flatMap fun c =>
    match c with
    | WireCall.Send data => data
    | _ => []

/-- An event at an adapter: a chunk delivered by the interface or a message to send. -/
inductive WireEvent where
  | OnBytesReceived (data : List Byte)
  | SendMessage (message : RemoteMessage)
deriving DecidableEq

namespace ProtobufWireAdapter

/-- The outcome on the adapter of a session method: nothing happens when the method
aborts in the session, otherwise its calls are carried out on the adapter. -/
def performOutcome (pb : ProtobufRuntime) (a : ProtobufWireAdapter) :
    Option (DeviceSession × List SessionCall) → Option ProtobufWireAdapter × List WireCall
  | none => (none, [])
  | some (_, calls) => a.performAll pb calls

/-- One event handled by the adapter; `none` when a `CHECK` aborts. -/
def handle (pb : ProtobufRuntime) (a : ProtobufWireAdapter) :
    WireEvent → Option (ProtobufWireAdapter × List WireCall)
  | WireEvent.OnBytesReceived data => some (a.OnBytesReceived pb data)
  | WireEvent.SendMessage message => a.SendMessage pb message

/-- A sequence of events handled in order: the adapter left at the end (`none` after an
abort) and the calls made until then. -/
def handleAll (pb : ProtobufRuntime) :
    ProtobufWireAdapter → List WireEvent → Option ProtobufWireAdapter × List WireCall
  | a, [] => (some a, [])
  | a, event :: rest =>
    match a.handle pb event with
    | none => (none, [])
    | some (a1, calls1) =>
      let r := handleAll pb a1 rest
      (r.1, calls1 ++ r.2)

/-- Every delivery of the list is made while a receive request is outstanding, where
`outstanding` is the number of requests issued and not yet answered. -/
def answersRequests (pb : ProtobufRuntime) :
    ProtobufWireAdapter → Nat → List (List Byte) → Bool
  | _, _, [] => true
  | a, outstanding, data :: rest =>
    decide (1 ≤ outstanding) &&
      answersRequests pb (a.OnBytesReceived pb data).1
        (outstanding - 1 + receiveCount (a.OnBytesReceived pb data).2) rest

/-- The chunks in which the adapter asks for the buffer of one sent message: the bytes
of the length, one per chunk, and then the serialised message as one chunk. -/
def messageChunks (pb : ProtobufRuntime) (message : RemoteMessage) : List (List Byte) :=
  preambleChunks (VarintSize32 (pb.ByteSize message))
    (WriteVarint32 (pb.ByteSize message) ++ pb.SerializeToCodedStream message)

end ProtobufWireAdapter

/-- A sequence number is either not set or at least 1. -/
def SequenceNumberAbsentOrPositive (message : RemoteMessage) : Prop :=
  message.sequence_number = none ∨ ∃ n, message.sequence_number = some n ∧ 1 ≤ n

/-! ## Auxiliary lemmas -/

set_option maxRecDepth 100000 in
theorem byte_and_80 (b : Byte) : b.val &&& 0x80 = 0 ↔ b.val < 128 := by
  revert b; decide

set_option maxRecDepth 100000 in
theorem byte_or_80 (b : Byte) : b.val ||| 0x80 = 128 + b.val % 128 := by
  revert b; decide

theorem or_80_mod_256 (value : Nat) : (value ||| 0x80) % 256 = 128 + value % 128 := by
  have h1 : value = 2 ^ 8 * (value / 256) + value % 256 := by
    have := Nat.div_add_mod value 256
    omega
  have hlt : value % 256 < 2 ^ 8 := by omega
  have h2 : (value % 256 ||| 0x80) < 2 ^ 8 := Nat.or_lt_two_pow hlt (by decide)
  have h3 : value ||| 0x80 = 2 ^ 8 * (value / 256) + (value % 256 ||| 0x80) := by
    rw [Nat.mul_add_lt_is_or h2, ← Nat.or_assoc, ← Nat.mul_add_lt_is_or hlt, ← h1]
  have h4 := byte_or_80 ⟨value % 256, by omega⟩
  simp only at h4
  rw [h3, h4]
  omega

theorem and_7F (x : Nat) : x &&& 0x7F = x % 128 :=
  Nat.and_pow_two_sub_one_eq_mod x 7

theorem ofNat_val_small (value : Nat) (h : value < 128) : ((Fin.ofNat value : Byte)).val = value := by
  show value % 256 = value
  omega

theorem ofNat_or_80_val (value : Nat) : ((Fin.ofNat (value ||| 0x80) : Byte)).val = 128 + value % 128 := by
  show (value ||| 0x80) % 256 = 128 + value % 128
  exact or_80_mod_256 value

theorem varintValue_append_single (pre : List Byte) (last : Byte) :
    varintValue (pre ++ [last]) = varintValue pre + 128 ^ pre.length * (last.val &&& 0x7F) := by
  induction pre with
  | nil => simp [varintValue]
  | cons b bs ih =>
    rw [List.cons_append]
    simp only [varintValue, ih, List.length_cons, Nat.pow_succ]
    ring

theorem varintValue_lt (bs : List Byte) : varintValue bs < 128 ^ bs.length := by
  induction bs with
  | nil => simp [varintValue]
  | cons b bs ih =>
    have hb : b.val &&& 0x7F < 128 := by rw [and_7F]; omega
    simp only [varintValue, List.length_cons, Nat.pow_succ]
    omega

/-- What the unrolled writer loop produces for a value that fits its rounds. -/
theorem WriteVarint32_loop_spec : ∀ (rounds value : Nat), value < 128 ^ (rounds + 1) →
    ∃ (pre : List Byte) (last : Byte),
      WriteVarint32.loop rounds value = pre ++ [last] ∧
      (∀ b ∈ pre, 128 ≤ b.val) ∧ last.val < 128 ∧
      varintValue (WriteVarint32.loop rounds value) = value ∧
      (value ≠ 0 → last.val ≠ 0) ∧ (value < 128 → pre = []) ∧ pre.length ≤ rounds := by
  intro rounds
  induction rounds with
  | zero =>
    intro value h
    have hv : value < 128 := by simpa using h
    refine ⟨[], Fin.ofNat value, by simp [WriteVarint32.loop], by simp, ?_, ?_, ?_, by simp, by simp⟩
    · rw [ofNat_val_small value hv]; exact hv
    · simp only [WriteVarint32.loop, varintValue, ofNat_val_small value hv, and_7F]
      omega
    · rw [ofNat_val_small value hv]; exact id
  | succ r ih =>
    intro value h
    by_cases hv : value < 128
    · refine ⟨[], Fin.ofNat value, ?_, by simp, ?_, ?_, ?_, by simp, by simp⟩
      · have : ¬ value ≥ 0x80 := by omega
        simp [WriteVarint32.loop, this]
      · rw [ofNat_val_small value hv]; exact hv
      · have : ¬ value ≥ 0x80 := by omega
        simp only [WriteVarint32.loop, this, if_false, varintValue,
          ofNat_val_small value hv, and_7F]
        omega
      · rw [ofNat_val_small value hv]; exact id
    · have hge : value ≥ 0x80 := by omega
      have hshift : value >>> 7 = value / 128 := by
        rw [Nat.shiftRight_eq_div_pow]
      have hlt : value >>> 7 < 128 ^ (r + 1) := by
        rw [hshift]
        rw [Nat.pow_succ] at h
        exact Nat.div_lt_of_lt_mul (by omega)
      obtain ⟨pre, last, heq, hpre, hlast, hval, hnz, _, hlen⟩ := ih (value >>> 7) hlt
      refine ⟨Fin.ofNat (value ||| 0x80) :: pre, last, ?_, ?_, hlast, ?_, ?_, ?_, ?_⟩
      · simp [WriteVarint32.loop, hge, heq]
      · intro b hb
        rcases List.mem_cons.mp hb with rfl | hb
        · rw [ofNat_or_80_val]; omega
        · exact hpre b hb
      · simp only [WriteVarint32.loop, hge, if_true, varintValue, hval,
          ofNat_or_80_val, and_7F]
        rw [hshift]
        omega
      · intro _
        apply hnz
        rw [hshift]
        omega
      · intro h'; omega
      · simp; omega

theorem WriteVarint32_length (value : Nat) :
    (WriteVarint32 value).length = VarintSize32 value := by
  have hlt : value % 2 ^ 32 < 2 ^ 32 := Nat.mod_lt _ (by decide)
  simp only [WriteVarint32, VarintSize32]
  generalize value % 2 ^ 32 = v at hlt
  simp only [WriteVarint32.loop, Nat.shiftRight_eq_div_pow]
  norm_num
  split_ifs <;> first | rfl | omega

theorem WriteVarint32_spec (value : Nat) (h : value < 2 ^ 32) :
    ∃ (pre : List Byte) (last : Byte),
      WriteVarint32 value = pre ++ [last] ∧
      (∀ b ∈ pre, 128 ≤ b.val) ∧ last.val < 128 ∧
      varintValue (WriteVarint32 value) = value ∧
      (pre = [] ∨ last.val ≠ 0) ∧ pre.length ≤ 4 := by
  have hmod : value % 2 ^ 32 = value := Nat.mod_eq_of_lt h
  have hlt : value < 128 ^ (4 + 1) := by
    have : (128 : Nat) ^ (4 + 1) = 34359738368 := by norm_num
    omega
  obtain ⟨pre, last, heq, hpre, hlast, hval, hnz, hsmall, hlen⟩ := WriteVarint32_loop_spec 4 value hlt
  refine ⟨pre, last, ?_, hpre, hlast, ?_, ?_, hlen⟩
  · simp only [WriteVarint32, hmod, heq]
  · simp only [WriteVarint32, hmod, hval]
  · by_cases hv : value < 128
    · exact Or.inl (hsmall hv)
    · exact Or.inr (hnz (by omega))

theorem preamble_or (acc x n : Nat) (hacc : acc < 128 ^ n) (hfit : 128 ^ n * x < 2 ^ 32) :
    acc ||| (x <<< (n * 7)) % 2 ^ 32 = acc + 128 ^ n * x := by
  have hpow : (128 : Nat) ^ n = 2 ^ (n * 7) := by
    rw [Nat.mul_comm, Nat.pow_mul]
  rw [Nat.shiftLeft_eq, Nat.mul_comm x, ← hpow, Nat.mod_eq_of_lt hfit, Nat.or_comm]
  rw [hpow] at hacc ⊢
  rw [Nat.add_comm]
  exact (Nat.mul_add_lt_is_or hacc x).symm

theorem pow_128_le (n : Nat) (h : n ≤ 3) : 128 ^ n ≤ 2097152 := by
  have : (128 : Nat) ^ n ≤ 128 ^ 3 := Nat.pow_le_pow_right (by decide) h
  simpa using this

namespace ProtobufWireAdapter

theorem deliver_append (pb : ProtobufRuntime) : ∀ (xs ys : List (List Byte)) (a : ProtobufWireAdapter),
    deliver pb a (xs ++ ys) =
      ((deliver pb (deliver pb a xs).1 ys).1, (deliver pb a xs).2 ++ (deliver pb (deliver pb a xs).1 ys).2) := by
  intro xs
  induction xs with
  | nil => intro ys a; simp [deliver]
  | cons x xs ih => intro ys a; simp [deliver, ih, List.append_assoc]

/-- A continuation byte (high bit set) that is not the fifth byte of the preamble. -/
theorem HandlePreambleByte_more (a : ProtobufWireAdapter) (byte : Byte)
    (hacc : a.preamble_ < 128 ^ a.preamble_num_bytes_) (hnum : a.preamble_num_bytes_ < 4)
    (hbyte : 128 ≤ byte.val) :
    a.HandlePreambleByte byte =
      ({ a with preamble_ := a.preamble_ + 128 ^ a.preamble_num_bytes_ * (byte.val &&& 0x7F),
                preamble_num_bytes_ := a.preamble_num_bytes_ + 1 }, [WireCall.Receive 1]) := by
  have h80 : ¬ (byte.val &&& 0x80 = 0) := by rw [byte_and_80]; omega
  have hn : (a.preamble_num_bytes_ + 1) % 256 = a.preamble_num_bytes_ + 1 := by omega
  have h5 : ¬ (a.preamble_num_bytes_ + 1 ≥ 5) := by omega
  have hx : byte.val &&& 0x7F < 128 := by rw [and_7F]; omega
  have hp := pow_128_le a.preamble_num_bytes_ (by omega)
  have hfit : 128 ^ a.preamble_num_bytes_ * (byte.val &&& 0x7F) < 2 ^ 32 := by
    calc 128 ^ a.preamble_num_bytes_ * (byte.val &&& 0x7F)
        ≤ 2097152 * 127 := Nat.mul_le_mul hp (by omega)
      _ < 2 ^ 32 := by norm_num
  have hcount : a.preamble_num_bytes_ * 7 % 32 = a.preamble_num_bytes_ * 7 := by omega
  have hor := preamble_or a.preamble_ (byte.val &&& 0x7F) a.preamble_num_bytes_ hacc hfit
  simp only [HandlePreambleByte, h80, hn, h5, hcount, hor, if_false]

/-- The byte that ends the preamble (high bit clear), when the decoded length fits 32 bits. -/
theorem HandlePreambleByte_done (a : ProtobufWireAdapter) (byte : Byte)
    (hacc : a.preamble_ < 128 ^ a.preamble_num_bytes_) (hnum : a.preamble_num_bytes_ ≤ 4)
    (hfit : 128 ^ a.preamble_num_bytes_ * (byte.val &&& 0x7F) < 2 ^ 32)
    (hbyte : byte.val &&& 0x80 = 0) :
    a.HandlePreambleByte byte =
      ({ a with preamble_ := 0, preamble_num_bytes_ := 0, read_state_ := ReadState.kMessage },
        [WireCall.Receive (a.preamble_ + 128 ^ a.preamble_num_bytes_ * (byte.val &&& 0x7F))]) := by
  have hcount : a.preamble_num_bytes_ * 7 % 32 = a.preamble_num_bytes_ * 7 := by omega
  have hor := preamble_or a.preamble_ (byte.val &&& 0x7F) a.preamble_num_bytes_ hacc hfit
  simp only [HandlePreambleByte, hbyte, hcount, hor, if_true]

theorem OnBytesReceived_preamble (pb : ProtobufRuntime) (a : ProtobufWireAdapter) (byte : Byte)
    (hstate : a.read_state_ = ReadState.kPreamble) :
    a.OnBytesReceived pb [byte] = a.HandlePreambleByte byte := by
  simp [OnBytesReceived, hstate]

/-- Continuation bytes delivered one per chunk while fewer than five bytes are consumed. -/
theorem deliver_continuation (pb : ProtobufRuntime) : ∀ (pre : List Byte) (a : ProtobufWireAdapter),
    a.read_state_ = ReadState.kPreamble →
    a.preamble_ < 128 ^ a.preamble_num_bytes_ →
    a.preamble_num_bytes_ + pre.length ≤ 4 →
    (∀ b ∈ pre, 128 ≤ b.val) →
    deliver pb a (pre.map fun b => [b]) =
      ({ a with preamble_ := a.preamble_ + 128 ^ a.preamble_num_bytes_ * varintValue pre,
                preamble_num_bytes_ := a.preamble_num_bytes_ + pre.length },
        List.replicate pre.length (WireCall.Receive 1)) := by
  intro pre
  induction pre with
  | nil => intro a _ _ _ _; simp [deliver, varintValue]
  | cons b bs ih =>
    intro a hstate hacc hlen hall
    have hb : 128 ≤ b.val := hall b (List.mem_cons_self _ _)
    have hlen1 : a.preamble_num_bytes_ + (bs.length + 1) ≤ 4 := by simpa using hlen
    have hx : b.val &&& 0x7F < 128 := by rw [and_7F]; omega
    have hstep := HandlePreambleByte_more a b hacc (by omega) hb
    have hacc1 : a.preamble_ + 128 ^ a.preamble_num_bytes_ * (b.val &&& 0x7F)
        < 128 ^ (a.preamble_num_bytes_ + 1) := by
      rw [Nat.pow_succ]
      calc a.preamble_ + 128 ^ a.preamble_num_bytes_ * (b.val &&& 0x7F)
          < 128 ^ a.preamble_num_bytes_ + 128 ^ a.preamble_num_bytes_ * (b.val &&& 0x7F) := by omega
        _ = 128 ^ a.preamble_num_bytes_ * ((b.val &&& 0x7F) + 1) := by ring
        _ ≤ 128 ^ a.preamble_num_bytes_ * 128 := Nat.mul_le_mul_left _ (by omega)
    have hrec := ih
      { a with preamble_ := a.preamble_ + 128 ^ a.preamble_num_bytes_ * (b.val &&& 0x7F),
               preamble_num_bytes_ := a.preamble_num_bytes_ + 1 }
      hstate hacc1 (by simp only; omega) (fun c hc => hall c (List.mem_cons_of_mem _ hc))
    simp only [List.map_cons, deliver, OnBytesReceived_preamble pb a b hstate, hstep, hrec,
      varintValue, List.length_cons, List.replicate_succ, List.singleton_append, Nat.pow_succ]
    refine Prod.ext ?_ rfl
    simp only [mk.injEq, true_and]
    constructor
    · ring
    · omega

theorem deliver_continuation_take (pb : ProtobufRuntime) (pre : List Byte) (a : ProtobufWireAdapter)
    (hstate : a.read_state_ = ReadState.kPreamble) (hacc : a.preamble_ = 0)
    (hnum : a.preamble_num_bytes_ = 0) (hk : pre.length ≤ 4) (hpre : ∀ b ∈ pre, 128 ≤ b.val)
    (j : Nat) (hj : j ≤ pre.length) :
    (deliver pb a ((pre.take j).map fun b => [b])).2 = List.replicate j (WireCall.Receive 1) := by
  have hlen : (pre.take j).length = j := by simp [List.length_take, hj]
  have h := deliver_continuation pb (pre.take j) a hstate (by rw [hacc, hnum]; decide)
    (by rw [hnum, hlen]; omega) (fun b hb => hpre b (List.mem_of_mem_take hb))
  rw [h, hlen]

/-- A whole preamble, one byte per chunk, from the start of the preamble state. -/
theorem deliver_preamble (pb : ProtobufRuntime) (a : ProtobufWireAdapter) (pre : List Byte)
    (last : Byte) (hstate : a.read_state_ = ReadState.kPreamble) (hacc : a.preamble_ = 0)
    (hnum : a.preamble_num_bytes_ = 0) (hk : pre.length ≤ 4) (hpre : ∀ b ∈ pre, 128 ≤ b.val)
    (hlast : last.val < 128) (hv : varintValue (pre ++ [last]) < 2 ^ 32) :
    deliver pb a ((pre ++ [last]).map fun b => [b]) =
      ({ a with read_state_ := ReadState.kMessage, preamble_ := 0, preamble_num_bytes_ := 0 },
        List.replicate pre.length (WireCall.Receive 1) ++
          [WireCall.Receive (varintValue (pre ++ [last]))]) := by
  have hcont := deliver_continuation pb pre a hstate (by rw [hacc, hnum]; decide)
    (by rw [hnum]; omega) hpre
  have hsplit := varintValue_append_single pre last
  have hlt := varintValue_lt pre
  have h80 : last.val &&& 0x80 = 0 := (byte_and_80 last).mpr hlast
  rw [hacc, hnum] at hcont
  simp only [Nat.zero_add, pow_zero, Nat.one_mul] at hcont
  have hdone := HandlePreambleByte_done
    { a with preamble_ := varintValue pre, preamble_num_bytes_ := pre.length } last
    hlt hk (by simp only; omega) h80
  have hrecv := OnBytesReceived_preamble pb
    { a with preamble_ := varintValue pre, preamble_num_bytes_ := pre.length } last hstate
  rw [List.map_append, deliver_append, hcont]
  simp only [List.map_cons, List.map_nil, deliver, List.append_nil, hrecv, hdone, hsplit]

/-- The fifth byte of a preamble, when it still has the high bit set. -/
theorem HandlePreambleByte_fifth (a : ProtobufWireAdapter) (byte : Byte)
    (hnum : a.preamble_num_bytes_ = 4) (hl : a.listener_ = true) (hbyte : 128 ≤ byte.val) :
    (a.HandlePreambleByte byte).2 = [WireCall.OnError] := by
  have h80 : ¬ (byte.val &&& 0x80 = 0) := by rw [byte_and_80]; omega
  simp [HandlePreambleByte, h80, hnum, OnError, hl]

/-- While a message body is awaited, both preamble fields are zero. -/
theorem Reachable.preamble_reset {a : ProtobufWireAdapter} (h : Reachable a) :
    a.read_state_ = ReadState.kMessage → a.preamble_ = 0 ∧ a.preamble_num_bytes_ = 0 := by
  induction h with
  | new => intro h; simp [ProtobufWireAdapter.new] at h
  | set_listener _ ih => exact ih
  | @Init a r cs _ hinit ih =>
    intro hr
    obtain ⟨l, i, st, acc, num⟩ := a
    cases st <;> cases i <;>
      simp_all [ProtobufWireAdapter.Init, GetNextMessage]
    all_goals (obtain ⟨rfl, _⟩ := hinit; simp_all)
  | @SendMessage a r cs pb message _ hsend ih =>
    intro hr
    obtain ⟨l, i, st, acc, num⟩ := a
    cases i <;> simp_all [ProtobufWireAdapter.SendMessage]
    obtain ⟨rfl, _⟩ := hsend
    simp_all
  | @OnBytesReceived a pb data _ ih =>
    intro hr
    obtain ⟨l, i, st, acc, num⟩ := a
    cases st
    · cases l <;> simp [ProtobufWireAdapter.OnBytesReceived, ProtobufWireAdapter.OnError] at hr
    · match data with
      | [] => cases l <;> simp [ProtobufWireAdapter.OnBytesReceived, ProtobufWireAdapter.OnError] at hr
      | [b] =>
        simp only [ProtobufWireAdapter.OnBytesReceived, HandlePreambleByte,
          ProtobufWireAdapter.OnError] at hr ⊢
        split_ifs at hr ⊢ <;> simp_all
      | b :: c :: rest =>
        cases l <;> simp [ProtobufWireAdapter.OnBytesReceived, ProtobufWireAdapter.OnError] at hr
    · cases l <;>
        simp [ProtobufWireAdapter.OnBytesReceived, ParseMessage, GetNextMessage] at hr
  | @OnError a _ ih =>
    intro hr
    obtain ⟨l, i, st, acc, num⟩ := a
    cases l <;> simp_all [ProtobufWireAdapter.OnError]

end ProtobufWireAdapter

open ProtobufWireAdapter

theorem requestedSizes_append (xs ys : List WireCall) :
    requestedSizes (xs ++ ys) = requestedSizes xs ++ requestedSizes ys := by
  simp [requestedSizes, List.filterMap_append]

theorem requestedSizes_replicate (j n : Nat) :
    requestedSizes (List.replicate j (WireCall.Receive n)) = List.replicate j n := by
  induction j with
  | zero => simp [requestedSizes]
  | succ j ih =>
    rw [List.replicate_succ, List.replicate_succ]
    simp only [requestedSizes, List.filterMap_cons] at ih ⊢
    rw [ih]

theorem ArrayOutputStream_exact (bytes : List Byte) : ArrayOutputStream bytes.length bytes = bytes := by
  simp [ArrayOutputStream]

theorem SendMessage_buffer (pb : ProtobufRuntime) (a : ProtobufWireAdapter) (message : RemoteMessage)
    (hinit : a.initialized_ = true) :
    a.SendMessage pb message = some (a, [WireCall.Send
      (WriteVarint32 (pb.ByteSize message) ++ pb.SerializeToCodedStream message)]) := by
  have hlen : VarintSize32 (pb.ByteSize message) + pb.ByteSize message =
      (WriteVarint32 (pb.ByteSize message) ++ pb.SerializeToCodedStream message).length := by
    rw [List.length_append, WriteVarint32_length]
    rfl
  simp only [ProtobufWireAdapter.SendMessage, hinit, hlen, ArrayOutputStream_exact]
  rfl

theorem OnBytesReceived_message (pb : ProtobufRuntime) (a : ProtobufWireAdapter) (data : List Byte)
    (hstate : a.read_state_ = ReadState.kMessage) (hl : a.listener_ = true) :
    a.OnBytesReceived pb data =
      ({ a with read_state_ := ReadState.kPreamble },
        [WireCall.OnMessage (pb.ParseFromArray data).2, WireCall.Receive 1]) := by
  simp [ProtobufWireAdapter.OnBytesReceived, hstate, ParseMessage, hl, GetNextMessage]

/-- The bytes of the writer, one per chunk, make the adapter request the written value. -/
theorem WriteVarint32_deliver_preamble (pb : ProtobufRuntime)
    (a : ProtobufWireAdapter) (n : Nat) (hstate : a.read_state_ = ReadState.kPreamble)
    (hacc : a.preamble_ = 0) (hnum : a.preamble_num_bytes_ = 0) (hn : n < 2 ^ 32) :
    a.deliver pb ((WriteVarint32 n).map fun b => [b]) =
      ({ a with read_state_ := ReadState.kMessage, preamble_ := 0, preamble_num_bytes_ := 0 },
        List.replicate (VarintSize32 n - 1) (WireCall.Receive 1) ++ [WireCall.Receive n]) := by
  obtain ⟨pre, last, heq, hpre, hlast, hval, _, hlen⟩ := WriteVarint32_spec n hn
  have hsize : VarintSize32 n - 1 = pre.length := by
    rw [← WriteVarint32_length, heq]
    simp
  have h := deliver_preamble pb a pre last hstate hacc hnum hlen hpre hlast
    (by rw [← heq, hval]; exact hn)
  rw [← heq, hval] at h
  rw [h, hsize]

theorem int32_t_of_range (x : Int) (h0 : -(2 ^ 31) ≤ x) (h1 : x < 2 ^ 31) : int32_t x = x := by
  unfold int32_t
  omega

/-- One ping from a counter that does not overflow. -/
theorem SendPing_step (c : Int) (h0 : 0 ≤ c) (h1 : c + 1 < 2 ^ 31) :
    DeviceSession.SendPing { ping_counter_ := c } =
      some ({ ping_counter_ := c + 1 },
        [SessionCall.SendMessage
          { sequence_number := some (c + 1).toNat,
            request_message := some RequestMessage.default_instance,
            response_message := none }]) := by
  have hw : int32_t (c + 1) = c + 1 := int32_t_of_range (c + 1) (by omega) h1
  have hneg : ¬ (c + 1 < 0) := by omega
  have hne : c + 1 ≠ 0 := by omega
  have hmod : (c + 1) % 2 ^ 32 = c + 1 := Int.emod_eq_of_lt (by omega) (by omega)
  simp only [DeviceSession.SendPing, DeviceSession.SendRequestWithSequence, hw, hneg, hne,
    hmod, if_false, if_true, ne_eq, not_false_eq_true]

/-- The calls of `m` pings from counter `c`: sequence numbers `c + 1, ..., c + m`. -/
theorem SendPingTimes_from : ∀ (m : Nat) (c : Nat), c + m < 2147483648 →
    DeviceSession.SendPingTimes m { ping_counter_ := (c : Int) } =
      some ({ ping_counter_ := ((c + m : Nat) : Int) },
        (List.range m).map fun k =>
          SessionCall.SendMessage
            { sequence_number := some (c + k + 1),
              request_message := some RequestMessage.default_instance,
              response_message := none }) := by
  intro m
  induction m with
  | zero => intro c _; simp [DeviceSession.SendPingTimes]
  | succ m ih =>
    intro c h
    have hstep := SendPing_step (c : Int) (by omega) (by norm_num; omega)
    have hrec := ih (c + 1) (by omega)
    have hnat : ((c : Int) + 1).toNat = c + 1 := by omega
    have hcast : ((c : Int) + 1) = ((c + 1 : Nat) : Int) := by push_cast; rfl
    rw [hnat, hcast] at hstep
    rw [DeviceSession.SendPingTimes, hstep]
    simp only [hrec]
    have hsum : c + 1 + m = c + (m + 1) := by omega
    have e : ∀ k, c + 1 + k + 1 = c + (k + 1) + 1 := by intro k; omega
    rw [hsum, List.range_succ_eq_map, List.map_cons, List.map_map]
    simp only [List.singleton_append, Function.comp, Nat.succ_eq_add_one, Nat.add_zero, e]
    rfl

/-- A chunk that the adapter does not expect is answered by `OnError` alone. -/
theorem OnBytesReceived_error_only (pb : ProtobufRuntime) (a : ProtobufWireAdapter)
    (data : List Byte) (hl : a.listener_ = true)
    (hcase : a.read_state_ = ReadState.kNone ∨
      (a.read_state_ = ReadState.kPreamble ∧ data.length ≠ 1)) :
    a.OnBytesReceived pb data = (a, [WireCall.OnError]) := by
  rcases hcase with hnone | ⟨hpre, hlen⟩
  · simp [ProtobufWireAdapter.OnBytesReceived, hnone, ProtobufWireAdapter.OnError, hl]
  · match data, hlen with
    | [], _ => simp [ProtobufWireAdapter.OnBytesReceived, hpre, ProtobufWireAdapter.OnError, hl]
    | [b], h => simp at h
    | b :: c :: rest, _ =>
      simp [ProtobufWireAdapter.OnBytesReceived, hpre, ProtobufWireAdapter.OnError, hl]

theorem HandlePreambleByte_more_read_state (a : ProtobufWireAdapter) (byte : Byte)
    (hbyte : 128 ≤ byte.val) : (a.HandlePreambleByte byte).1.read_state_ = a.read_state_ := by
  have h80 : ¬ (byte.val &&& 0x80 = 0) := by rw [byte_and_80]; omega
  simp only [HandlePreambleByte, h80, if_false, ProtobufWireAdapter.OnError]
  split_ifs <;> rfl

theorem deliver_idle (pb : ProtobufRuntime) (a : ProtobufWireAdapter)
    (hstate : a.read_state_ = ReadState.kNone) (hl : a.listener_ = true) :
    ∀ chunks : List (List Byte),
      a.deliver pb chunks = (a, List.replicate chunks.length WireCall.OnError) := by
  intro chunks
  induction chunks with
  | nil => simp [deliver]
  | cons data rest ih =>
    have h := OnBytesReceived_error_only pb a data hl (Or.inl hstate)
    simp [deliver, h, ih, List.replicate_succ]

theorem receiveCount_append (xs ys : List WireCall) :
    receiveCount (xs ++ ys) = receiveCount xs + receiveCount ys := by
  simp [receiveCount, requestedSizes_append]

theorem OnBytesReceived_receiveCount (pb : ProtobufRuntime) (a : ProtobufWireAdapter)
    (data : List Byte) : receiveCount (a.OnBytesReceived pb data).2 ≤ 1 := by
  obtain ⟨l, i, st, acc, num⟩ := a
  cases st
  · cases l <;>
      simp [ProtobufWireAdapter.OnBytesReceived, ProtobufWireAdapter.OnError, receiveCount,
        requestedSizes]
  · match data with
    | [] =>
      cases l <;>
        simp [ProtobufWireAdapter.OnBytesReceived, ProtobufWireAdapter.OnError, receiveCount,
          requestedSizes]
    | [b] =>
      simp only [ProtobufWireAdapter.OnBytesReceived, HandlePreambleByte,
        ProtobufWireAdapter.OnError]
      cases l <;> split_ifs <;> simp_all [receiveCount, requestedSizes]
    | b :: c :: rest =>
      cases l <;>
        simp [ProtobufWireAdapter.OnBytesReceived, ProtobufWireAdapter.OnError, receiveCount,
          requestedSizes]
  · cases l <;>
      simp [ProtobufWireAdapter.OnBytesReceived, ParseMessage, GetNextMessage, receiveCount,
        requestedSizes]

theorem deliver_receiveCount (pb : ProtobufRuntime) : ∀ (chunks : List (List Byte))
    (a : ProtobufWireAdapter), receiveCount (a.deliver pb chunks).2 ≤ chunks.length := by
  intro chunks
  induction chunks with
  | nil => intro a; simp [deliver, receiveCount, requestedSizes]
  | cons data rest ih =>
    intro a
    have h1 := OnBytesReceived_receiveCount pb a data
    have h2 := ih (a.OnBytesReceived pb data).1
    simp only [deliver, receiveCount_append, List.length_cons]
    omega

theorem Init_receiveCount (a a1 : ProtobufWireAdapter) (calls : List WireCall)
    (hinit : a.Init = some (a1, calls)) : receiveCount calls ≤ 1 := by
  obtain ⟨l, i, st, acc, num⟩ := a
  cases i <;> cases st <;>
    simp_all [ProtobufWireAdapter.Init, GetNextMessage]
  all_goals (obtain ⟨_, rfl⟩ := hinit; simp [receiveCount, requestedSizes])

/-- A message handed to an adapter that is not initialised aborts the process. -/
theorem performAll_SendMessage_uninitialised (pb : ProtobufRuntime) (a : ProtobufWireAdapter)
    (message : RemoteMessage) (hinit : a.initialized_ = false) :
    a.performAll pb [SessionCall.SendMessage message] = (none, []) := by
  simp [performAll, perform, ProtobufWireAdapter.SendMessage, hinit]

/-- A session method that goes through `SendRequestWithSequence` either aborts or makes
exactly one call, a `SendMessage`. -/
theorem SendRequestWithSequence_cases (s : DeviceSession) (request : RequestMessage)
    (sequence_number : Int) :
    s.SendRequestWithSequence request sequence_number = none ∨
    ∃ message, s.SendRequestWithSequence request sequence_number =
      some (s, [SessionCall.SendMessage message]) := by
  unfold DeviceSession.SendRequestWithSequence
  split_ifs
  · exact Or.inl rfl
  · exact Or.inr ⟨_, rfl⟩
  · exact Or.inr ⟨_, rfl⟩

theorem send_cases (s : DeviceSession) (operation : SendOperation) :
    s.send operation = none ∨
    ∃ s1 message, s.send operation = some (s1, [SessionCall.SendMessage message]) := by
  cases operation with
  | Ping =>
    rcases SendRequestWithSequence_cases
      { s with ping_counter_ := int32_t (s.ping_counter_ + 1) }
      RequestMessage.default_instance (int32_t (s.ping_counter_ + 1)) with h | ⟨m, h⟩
    · exact Or.inl h
    · exact Or.inr ⟨_, m, h⟩
  | KeyEvent keycode action =>
    rcases SendRequestWithSequence_cases s
      { RequestMessage.default_instance with
        key_event_message := some { keycode := keycode, action := action } } 0 with h | ⟨m, h⟩
    · exact Or.inl h
    · exact Or.inr ⟨_, m, h⟩
  | MouseMove x_delta y_delta =>
    rcases SendRequestWithSequence_cases s
      { RequestMessage.default_instance with
        mouse_event_message := some { x_delta := x_delta, y_delta := y_delta } } 0
      with h | ⟨m, h⟩
    · exact Or.inl h
    · exact Or.inr ⟨_, m, h⟩
  | MouseWheel x_scroll y_scroll =>
    rcases SendRequestWithSequence_cases s
      { RequestMessage.default_instance with
        mouse_wheel_message := some { x_scroll := x_scroll, y_scroll := y_scroll } } 0
      with h | ⟨m, h⟩
    · exact Or.inl h
    · exact Or.inr ⟨_, m, h⟩
  | Data type data =>
    rcases SendRequestWithSequence_cases s
      { RequestMessage.default_instance with
        data_message := some { type := type, data := data } } 0 with h | ⟨m, h⟩
    · exact Or.inl h
    · exact Or.inr ⟨_, m, h⟩
  | Connect device_name version =>
    rcases SendRequestWithSequence_cases s
      { RequestMessage.default_instance with
        connect_message := some { device_name := device_name, version := version } } 0
      with h | ⟨m, h⟩
    · exact Or.inl h
    · exact Or.inr ⟨_, m, h⟩
  | Fling uri sequence_number =>
    rcases SendRequestWithSequence_cases s
      { RequestMessage.default_instance with fling_message := some { uri := uri } }
      sequence_number with h | ⟨m, h⟩
    · exact Or.inl h
    · exact Or.inr ⟨_, m, h⟩

theorem int32_t_range (x : Int) : -2147483648 ≤ int32_t x ∧ int32_t x < 2147483648 := by
  unfold int32_t
  omega

theorem SendRequestWithSequence_sequence_number (s s1 : DeviceSession)
    (request : RequestMessage) (sequence_number : Int) (calls : List SessionCall)
    (hlo : -2147483648 ≤ sequence_number) (hhi : sequence_number < 2147483648)
    (h : s.SendRequestWithSequence request sequence_number = some (s1, calls)) :
    ∀ message ∈ sentMessages calls, SequenceNumberAbsentOrPositive message := by
  unfold DeviceSession.SendRequestWithSequence at h
  by_cases hneg : sequence_number < 0
  · simp [hneg] at h
  · by_cases hz : sequence_number = 0
    · subst hz
      simp only [hneg, if_false, ne_eq, not_true_eq_false, Option.some.injEq, Prod.mk.injEq] at h
      obtain ⟨_, rfl⟩ := h
      intro message hm
      simp only [sentMessages, List.filterMap_cons, List.filterMap_nil, List.mem_singleton] at hm
      subst hm
      exact Or.inl rfl
    · simp only [hneg, if_false, ne_eq, hz, not_false_eq_true, if_true, Option.some.injEq,
        Prod.mk.injEq] at h
      obtain ⟨_, rfl⟩ := h
      intro message hm
      simp only [sentMessages, List.filterMap_cons, List.filterMap_nil, List.mem_singleton] at hm
      subst hm
      refine Or.inr ⟨_, rfl, ?_⟩
      have hmod : sequence_number % 2 ^ 32 = sequence_number :=
        Int.emod_eq_of_lt (by omega) (by norm_num; omega)
      rw [hmod]
      omega

theorem send_sequence_number (s s1 : DeviceSession) (operation : SendOperation)
    (calls : List SessionCall) (hfit : operation.fits_int32 = true)
    (h : s.send operation = some (s1, calls)) :
    ∀ message ∈ sentMessages calls, SequenceNumberAbsentOrPositive message := by
  cases operation with
  | Ping =>
    have hr := int32_t_range (s.ping_counter_ + 1)
    exact SendRequestWithSequence_sequence_number _ s1 _ _ calls hr.1 hr.2 h
  | KeyEvent keycode action =>
    exact SendRequestWithSequence_sequence_number s s1 _ 0 calls (by decide) (by decide) h
  | MouseMove x_delta y_delta =>
    exact SendRequestWithSequence_sequence_number s s1 _ 0 calls (by decide) (by decide) h
  | MouseWheel x_scroll y_scroll =>
    exact SendRequestWithSequence_sequence_number s s1 _ 0 calls (by decide) (by decide) h
  | Data type data =>
    exact SendRequestWithSequence_sequence_number s s1 _ 0 calls (by decide) (by decide) h
  | Connect device_name version =>
    exact SendRequestWithSequence_sequence_number s s1 _ 0 calls (by decide) (by decide) h
  | Fling uri sequence_number =>
    simp only [SendOperation.fits_int32, Bool.and_eq_true, decide_eq_true_eq] at hfit
    exact SendRequestWithSequence_sequence_number s s1 _ sequence_number calls hfit.1 hfit.2 h

theorem sentMessages_append (xs ys : List SessionCall) :
    sentMessages (xs ++ ys) = sentMessages xs ++ sentMessages ys := by
  simp [sentMessages, List.filterMap_append]

theorem sendAll_sequence_numbers : ∀ (operations : List SendOperation) (s : DeviceSession),
    (∀ operation ∈ operations, operation.fits_int32 = true) →
    ∀ message ∈ sentMessages (s.sendAll operations).2,
      SequenceNumberAbsentOrPositive message := by
  intro operations
  induction operations with
  | nil => intro s _ message hm; simp [DeviceSession.sendAll, sentMessages] at hm
  | cons operation rest ih =>
    intro s hfit message hm
    unfold DeviceSession.sendAll at hm
    cases hsend : s.send operation with
    | none => simp [hsend, sentMessages] at hm
    | some r =>
      obtain ⟨s1, calls1⟩ := r
      simp only [hsend, sentMessages_append, List.mem_append] at hm
      rcases hm with hm | hm
      · exact send_sequence_number s s1 operation calls1
          (hfit operation (List.mem_cons_self _ _)) hsend message hm
      · exact ih s1 (fun op hop => hfit op (List.mem_cons_of_mem _ hop)) message hm

namespace ProtobufWireAdapter

/-- Before `Init` an adapter is idle with both preamble fields zero. -/
theorem Reachable.idle_before_Init {a : ProtobufWireAdapter} (h : Reachable a) :
    a.initialized_ = false →
      a.read_state_ = ReadState.kNone ∧ a.preamble_ = 0 ∧ a.preamble_num_bytes_ = 0 := by
  induction h with
  | new => intro _; exact ⟨rfl, rfl, rfl⟩
  | set_listener _ ih => exact ih
  | @Init a r cs _ hinit ih =>
    intro hr
    obtain ⟨l, i, st, acc, num⟩ := a
    cases i <;> simp_all [ProtobufWireAdapter.Init]
    obtain ⟨rfl, _⟩ := hinit
    simp at hr
  | @SendMessage a r cs pb message _ hsend ih =>
    intro hr
    obtain ⟨l, i, st, acc, num⟩ := a
    cases i <;> simp_all [ProtobufWireAdapter.SendMessage]
    obtain ⟨rfl, _⟩ := hsend
    simp at hr
  | @OnBytesReceived a pb data _ ih =>
    intro hr
    obtain ⟨l, i, st, acc, num⟩ := a
    cases i
    · obtain ⟨hst, hacc, hnum⟩ := ih rfl
      simp only at hst hacc hnum
      subst hst hacc hnum
      cases l <;> simp [ProtobufWireAdapter.OnBytesReceived, ProtobufWireAdapter.OnError]
    · exfalso
      cases st
      · cases l <;> simp [ProtobufWireAdapter.OnBytesReceived, ProtobufWireAdapter.OnError] at hr
      · match data with
        | [] =>
          cases l <;>
            simp [ProtobufWireAdapter.OnBytesReceived, ProtobufWireAdapter.OnError] at hr
        | [b] =>
          simp only [ProtobufWireAdapter.OnBytesReceived, HandlePreambleByte,
            ProtobufWireAdapter.OnError] at hr
          split_ifs at hr <;> simp_all
        | b :: c :: rest =>
          cases l <;>
            simp [ProtobufWireAdapter.OnBytesReceived, ProtobufWireAdapter.OnError] at hr
      · cases l <;>
          simp [ProtobufWireAdapter.OnBytesReceived, ParseMessage, GetNextMessage] at hr
  | @OnError a _ ih =>
    intro hr
    obtain ⟨l, i, st, acc, num⟩ := a
    cases l <;> simp_all [ProtobufWireAdapter.OnError]

/-- One delivery that answers an outstanding request keeps the byte counter in range. -/
theorem OnBytesReceived_counter_step (pb : ProtobufRuntime) (a : ProtobufWireAdapter)
    (data : List Byte)
    (hinv : (a.read_state_ = ReadState.kPreamble ∧ a.preamble_num_bytes_ ≤ 4) ∨
      (a.read_state_ = ReadState.kMessage ∧ a.preamble_num_bytes_ = 0)) :
    (a.OnBytesReceived pb data).1.preamble_num_bytes_ ≤ 5 ∧
    receiveCount (a.OnBytesReceived pb data).2 ≤ 1 ∧
    (receiveCount (a.OnBytesReceived pb data).2 = 1 →
      ((a.OnBytesReceived pb data).1.read_state_ = ReadState.kPreamble ∧
        (a.OnBytesReceived pb data).1.preamble_num_bytes_ ≤ 4) ∨
      ((a.OnBytesReceived pb data).1.read_state_ = ReadState.kMessage ∧
        (a.OnBytesReceived pb data).1.preamble_num_bytes_ = 0)) := by
  obtain ⟨l, i, st, acc, num⟩ := a
  rcases hinv with ⟨hst, hnum⟩ | ⟨hst, hnum⟩
  · simp only at hst hnum
    subst hst
    match data with
    | [] =>
      cases l <;>
        simp [ProtobufWireAdapter.OnBytesReceived, ProtobufWireAdapter.OnError, receiveCount,
          requestedSizes] <;> omega
    | [b] =>
      have hmod : (num + 1) % 256 = num + 1 := by omega
      simp only [ProtobufWireAdapter.OnBytesReceived, HandlePreambleByte,
        ProtobufWireAdapter.OnError, hmod]
      cases l <;> split_ifs <;> simp_all [receiveCount, requestedSizes] <;> omega
    | b :: c :: rest =>
      cases l <;>
        simp [ProtobufWireAdapter.OnBytesReceived, ProtobufWireAdapter.OnError, receiveCount,
          requestedSizes] <;> omega
  · simp only at hst hnum
    subst hst hnum
    cases l <;>
      simp [ProtobufWireAdapter.OnBytesReceived, ParseMessage, GetNextMessage, receiveCount,
        requestedSizes]

/-- Deliveries that each answer an outstanding request keep the byte counter in range. -/
theorem deliver_counter_range (pb : ProtobufRuntime) : ∀ (chunks : List (List Byte))
    (a : ProtobufWireAdapter) (outstanding : Nat),
    outstanding ≤ 1 → a.preamble_num_bytes_ ≤ 5 →
    (outstanding = 1 →
      (a.read_state_ = ReadState.kPreamble ∧ a.preamble_num_bytes_ ≤ 4) ∨
      (a.read_state_ = ReadState.kMessage ∧ a.preamble_num_bytes_ = 0)) →
    a.answersRequests pb outstanding chunks = true →
    (a.deliver pb chunks).1.preamble_num_bytes_ ≤ 5 := by
  intro chunks
  induction chunks with
  | nil => intro a o _ hnum _ _; simpa [deliver] using hnum
  | cons data rest ih =>
    intro a o ho hnum hinv hsol
    simp only [answersRequests, Bool.and_eq_true, decide_eq_true_eq] at hsol
    obtain ⟨ho1, hrest⟩ := hsol
    have hone : o = 1 := by omega
    obtain ⟨h5, hcount, hnext⟩ := OnBytesReceived_counter_step pb a data (hinv hone)
    simp only [deliver]
    refine ih (a.OnBytesReceived pb data).1 (o - 1 + receiveCount (a.OnBytesReceived pb data).2)
      (by omega) h5 (fun h => hnext (by omega)) hrest

end ProtobufWireAdapter

/-- The fifth group of a preamble: only its low four bits reach the 32-bit length. -/
theorem preamble_or_fifth (acc x : Nat) (hacc : acc < 268435456) :
    acc ||| (x <<< (4 * 7)) % 2 ^ 32 = (acc + 268435456 * x) % 4294967296 := by
  have hshift : (x <<< (4 * 7)) % 2 ^ 32 = 2 ^ 28 * (x % 16) := by
    rw [Nat.shiftLeft_eq]
    norm_num
    omega
  have hacc2 : acc < 2 ^ 28 := by norm_num; exact hacc
  rw [hshift, Nat.or_comm, ← Nat.mul_add_lt_is_or hacc2]
  norm_num
  omega

namespace ProtobufWireAdapter

/-- A fifth preamble byte with the high bit clear ends the preamble with the length
reduced modulo `2 ^ 32`. -/
theorem HandlePreambleByte_fifth_done (a : ProtobufWireAdapter) (byte : Byte)
    (hacc : a.preamble_ < 268435456) (hnum : a.preamble_num_bytes_ = 4)
    (hbyte : byte.val < 128) :
    a.HandlePreambleByte byte =
      ({ a with preamble_ := 0, preamble_num_bytes_ := 0, read_state_ := ReadState.kMessage },
        [WireCall.Receive ((a.preamble_ + 268435456 * (byte.val &&& 0x7F)) % 4294967296)]) := by
  have h80 : byte.val &&& 0x80 = 0 := (byte_and_80 byte).mpr hbyte
  have hcount : 4 * 7 % 32 = 4 * 7 := by decide
  have hor := preamble_or_fifth a.preamble_ (byte.val &&& 0x7F) hacc
  simp only [HandlePreambleByte, h80, hnum, hcount, hor, if_true]

/-- Five preamble bytes, the first four with the high bit set and the fifth without. -/
theorem deliver_five_byte_preamble (pb : ProtobufRuntime) (a : ProtobufWireAdapter)
    (b0 b1 b2 b3 b4 : Byte) (hstate : a.read_state_ = ReadState.kPreamble)
    (hacc : a.preamble_ = 0) (hnum : a.preamble_num_bytes_ = 0)
    (h0 : 128 ≤ b0.val) (h1 : 128 ≤ b1.val) (h2 : 128 ≤ b2.val) (h3 : 128 ≤ b3.val)
    (h4 : b4.val < 128) :
    a.deliver pb [[b0], [b1], [b2], [b3], [b4]] =
      ({ a with read_state_ := ReadState.kMessage, preamble_ := 0, preamble_num_bytes_ := 0 },
        [WireCall.Receive 1, WireCall.Receive 1, WireCall.Receive 1, WireCall.Receive 1,
          WireCall.Receive (varintValue [b0, b1, b2, b3, b4] % 4294967296)]) := by
  have hall : ∀ b ∈ [b0, b1, b2, b3], 128 ≤ b.val := by
    intro b hb
    simp only [List.mem_cons, List.mem_singleton, List.not_mem_nil, or_false] at hb
    rcases hb with rfl | rfl | rfl | rfl <;> assumption
  have hcont := deliver_continuation pb [b0, b1, b2, b3] a hstate (by rw [hacc, hnum]; decide)
    (by rw [hnum]; simp) hall
  have hcont1 : a.deliver pb [[b0], [b1], [b2], [b3]] = _ := hcont
  rw [hacc, hnum] at hcont1
  simp only [Nat.zero_add, pow_zero, Nat.one_mul, List.length_cons, List.length_nil] at hcont1
  have hlt := varintValue_lt [b0, b1, b2, b3]
  have hlt2 : varintValue [b0, b1, b2, b3] < 268435456 := by
    have : (128 : Nat) ^ [b0, b1, b2, b3].length = 268435456 := by norm_num
    omega
  have hsplit := varintValue_append_single [b0, b1, b2, b3] b4
  have hsplit2 : varintValue [b0, b1, b2, b3, b4] =
      varintValue [b0, b1, b2, b3] + 268435456 * (b4.val &&& 0x7F) := by
    have e : [b0, b1, b2, b3, b4] = [b0, b1, b2, b3] ++ [b4] := rfl
    rw [e, hsplit]
    norm_num
  have hdone := HandlePreambleByte_fifth_done
    { a with preamble_ := varintValue [b0, b1, b2, b3], preamble_num_bytes_ := 4 } b4
    hlt2 rfl h4
  have hrecv := OnBytesReceived_preamble pb
    { a with preamble_ := varintValue [b0, b1, b2, b3], preamble_num_bytes_ := 4 } b4 hstate
  have happ := deliver_append pb [[b0], [b1], [b2], [b3]] [[b4]] a
  have hlist : [[b0], [b1], [b2], [b3], [b4]] = [[b0], [b1], [b2], [b3]] ++ [[b4]] := rfl
  rw [hlist, happ, hcont1]
  simp only [deliver, hrecv, hdone, hsplit2, List.append_nil]
  rfl

theorem messageChunks_eq (pb : ProtobufRuntime) (message : RemoteMessage) :
    messageChunks pb message =
      (WriteVarint32 (pb.ByteSize message)).map (fun b => [b]) ++
        [pb.SerializeToCodedStream message] := by
  simp [messageChunks, preambleChunks, ← WriteVarint32_length]

theorem VarintSize32_pos (value : Nat) : 1 ≤ VarintSize32 value := by
  unfold VarintSize32
  simp only
  split_ifs <;> omega

/-- The chunks of one sent message, delivered to an adapter with a listener that waits
for a preamble with both preamble fields zero: the message is dispatched and the
adapter is back where it was. -/
theorem deliver_messageChunks (pb : ProtobufRuntime) (a : ProtobufWireAdapter)
    (message : RemoteMessage) (hstate : a.read_state_ = ReadState.kPreamble)
    (hacc : a.preamble_ = 0) (hnum : a.preamble_num_bytes_ = 0) (hl : a.listener_ = true)
    (hsize : pb.ByteSize message < 4294967296)
    (hinverse : pb.ParseFromArray (pb.SerializeToCodedStream message) = (true, message)) :
    a.deliver pb (messageChunks pb message) =
      (a, List.replicate (VarintSize32 (pb.ByteSize message) - 1) (WireCall.Receive 1) ++
        [WireCall.Receive (pb.ByteSize message), WireCall.OnMessage message,
          WireCall.Receive 1]) := by
  obtain ⟨l, i, st, acc, num⟩ := a
  simp only at hstate hacc hnum hl
  subst hstate hacc hnum hl
  have hpre := WriteVarint32_deliver_preamble pb ⟨true, i, ReadState.kPreamble, 0, 0⟩
    (pb.ByteSize message) rfl rfl rfl (by norm_num; exact hsize)
  have hbody := OnBytesReceived_message pb ⟨true, i, ReadState.kMessage, 0, 0⟩
    (pb.SerializeToCodedStream message) rfl rfl
  rw [messageChunks_eq, deliver_append, hpre]
  simp only [deliver, hbody, hinverse, List.append_nil, List.append_assoc, List.singleton_append]

/-- A list of sent messages, each delivered in its chunks. -/
theorem deliver_all_messageChunks (pb : ProtobufRuntime) (a : ProtobufWireAdapter)
    (hstate : a.read_state_ = ReadState.kPreamble)
    (hacc : a.preamble_ = 0) (hnum : a.preamble_num_bytes_ = 0) (hl : a.listener_ = true) :
    ∀ messages : List RemoteMessage,
    (∀ message ∈ messages, pb.ByteSize message < 4294967296) →
    (∀ message ∈ messages,
      pb.ParseFromArray (pb.SerializeToCodedStream message) = (true, message)) →
    a.deliver pb (messages.flatMap (messageChunks pb)) =
      (a, messages.flatMap fun message =>
        List.replicate (VarintSize32 (pb.ByteSize message) - 1) (WireCall.Receive 1) ++
          [WireCall.Receive (pb.ByteSize message), WireCall.OnMessage message,
            WireCall.Receive 1]) := by
  intro messages
  induction messages with
  | nil => intro _ _; simp [deliver]
  | cons message rest ih =>
    intro hsize hinverse
    have h1 := deliver_messageChunks pb a message hstate hacc hnum hl
      (hsize message (List.mem_cons_self _ _)) (hinverse message (List.mem_cons_self _ _))
    have h2 := ih (fun m hm => hsize m (List.mem_cons_of_mem _ hm))
      (fun m hm => hinverse m (List.mem_cons_of_mem _ hm))
    rw [List.flatMap_cons, deliver_append, h1]
    simp only [h2, List.flatMap_cons]

/-- The buffers of a list of messages sent one after the other. -/
theorem handleAll_SendMessage (pb : ProtobufRuntime) (a : ProtobufWireAdapter)
    (hinit : a.initialized_ = true) : ∀ messages : List RemoteMessage,
    a.handleAll pb (messages.map WireEvent.SendMessage) =
      (some a, messages.map fun message => WireCall.Send
        (WriteVarint32 (pb.ByteSize message) ++ pb.SerializeToCodedStream message)) := by
  intro messages
  induction messages with
  | nil => simp [handleAll]
  | cons message rest ih =>
    have h := SendMessage_buffer pb a message hinit
    simp only [List.map_cons, handleAll, handle, h, ih, List.singleton_append]

theorem flatten_messageChunks (pb : ProtobufRuntime) (message : RemoteMessage) :
    (messageChunks pb message).flatten =
      WriteVarint32 (pb.ByteSize message) ++ pb.SerializeToCodedStream message := by
  rw [messageChunks_eq, List.flatten_append]
  have hsingle : ∀ bs : List Byte, (bs.map fun b => [b]).flatten = bs := by
    intro bs
    induction bs with
    | nil => rfl
    | cons b bs ih => simp [ih]
  simp [hsingle]

theorem sentBytes_eq_flatten (pb : ProtobufRuntime) : ∀ messages : List RemoteMessage,
    sentBytes (messages.map fun message => WireCall.Send
        (WriteVarint32 (pb.ByteSize message) ++ pb.SerializeToCodedStream message)) =
      (messages.flatMap (messageChunks pb)).flatten := by
  intro messages
  induction messages with
  | nil => simp [sentBytes]
  | cons message rest ih =>
    simp only [sentBytes] at ih
    simp only [sentBytes, List.map_cons, List.flatMap_cons, List.flatten_append,
      flatten_messageChunks, ih]

theorem dispatchedMessages_append (xs ys : List WireCall) :
    dispatchedMessages (xs ++ ys) = dispatchedMessages xs ++ dispatchedMessages ys := by
  simp [dispatchedMessages, List.filterMap_append]

theorem dispatchedMessages_replicate_Receive (j n : Nat) :
    dispatchedMessages (List.replicate j (WireCall.Receive n)) = [] := by
  induction j with
  | zero => simp [dispatchedMessages]
  | succ j ih =>
    rw [List.replicate_succ]
    simp only [dispatchedMessages, List.filterMap_cons] at ih ⊢
    exact ih

theorem dispatchedMessages_stream (pb : ProtobufRuntime) : ∀ messages : List RemoteMessage,
    dispatchedMessages (messages.flatMap fun message =>
        List.replicate (VarintSize32 (pb.ByteSize message) - 1) (WireCall.Receive 1) ++
          [WireCall.Receive (pb.ByteSize message), WireCall.OnMessage message,
            WireCall.Receive 1]) = messages := by
  intro messages
  induction messages with
  | nil => simp [dispatchedMessages]
  | cons message rest ih =>
    rw [List.flatMap_cons, dispatchedMessages_append, dispatchedMessages_append,
      dispatchedMessages_replicate_Receive, ih]
    simp [dispatchedMessages]

theorem requestedSizes_stream (pb : ProtobufRuntime) : ∀ messages : List RemoteMessage,
    requestedSizes (WireCall.Receive 1 :: messages.flatMap fun message =>
        List.replicate (VarintSize32 (pb.ByteSize message) - 1) (WireCall.Receive 1) ++
          [WireCall.Receive (pb.ByteSize message), WireCall.OnMessage message,
            WireCall.Receive 1]) =
      (messages.flatMap (messageChunks pb)).map List.length ++ [1] := by
  intro messages
  induction messages with
  | nil => simp [requestedSizes]
  | cons message rest ih =>
    have hcons : ∀ (n : Nat) (cs : List WireCall),
        requestedSizes (WireCall.Receive n :: cs) = n :: requestedSizes cs := by
      intro n cs; simp [requestedSizes]
    have hpos := VarintSize32_pos (pb.ByteSize message)
    have hrep : (1 : Nat) :: List.replicate (VarintSize32 (pb.ByteSize message) - 1) 1 =
        List.replicate (VarintSize32 (pb.ByteSize message)) 1 := by
      rw [← List.replicate_succ]
      congr 1
      omega
    have hmap : List.map List.length ((WriteVarint32 (pb.ByteSize message)).map (fun b => [b])) =
        List.replicate (VarintSize32 (pb.ByteSize message)) 1 := by
      rw [← WriteVarint32_length]
      simp [List.map_map, List.eq_replicate_iff]
    rw [hcons] at ih
    rw [hcons, List.flatMap_cons, List.flatMap_cons, requestedSizes_append,
      requestedSizes_append, requestedSizes_replicate, List.map_append, messageChunks_eq,
      List.map_append, hmap]
    have hsplit : requestedSizes [WireCall.Receive (pb.ByteSize message),
        WireCall.OnMessage message, WireCall.Receive 1] = [pb.ByteSize message, 1] := by
      simp [requestedSizes]
    rw [hsplit, ← hrep]
    simp only [List.cons_append, List.append_assoc, List.map_cons, List.map_nil,
      List.nil_append, List.singleton_append]
    rw [← ih]
    rfl

end ProtobufWireAdapter

theorem OnError_not_mem_stream (pb : ProtobufRuntime) (messages : List RemoteMessage) :
    WireCall.OnError ∉ messages.flatMap fun message =>
      List.replicate (VarintSize32 (pb.ByteSize message) - 1) (WireCall.Receive 1) ++
        [WireCall.Receive (pb.ByteSize message), WireCall.OnMessage message,
          WireCall.Receive 1] := by
  simp [List.mem_flatMap, List.mem_replicate]

/-- Only `set_listener` changes whether the listener pointer of the adapter is set. -/
theorem perform_listener (pb : ProtobufRuntime) (a a1 : ProtobufWireAdapter)
    (call : SessionCall) (calls1 : List WireCall) (h : a.perform pb call = some (a1, calls1)) :
    a1.listener_ = match call with
      | SessionCall.set_listener _ => true
      | _ => a.listener_ := by
  cases call with
  | Init =>
    simp only [perform, ProtobufWireAdapter.Init, ProtobufWireAdapter.GetNextMessage,
      ProtobufWireAdapter.OnError] at h
    split_ifs at h <;>
      (simp only [Option.some.injEq, Prod.mk.injEq] at h
       obtain ⟨h1, _⟩ := h
       subst h1
       rfl)
  | SendMessage message =>
    simp only [perform, ProtobufWireAdapter.SendMessage] at h
    split_ifs at h
    simp only [Option.some.injEq, Prod.mk.injEq] at h
    obtain ⟨h1, _⟩ := h
    subst h1
    rfl
  | _ =>
    simp only [perform, ProtobufWireAdapter.set_listener, Option.some.injEq,
      Prod.mk.injEq] at h
    obtain ⟨h1, _⟩ := h
    subst h1
    rfl

/-- The field `listener_` of the adapter left by the calls of a session tells whether the
pointer that `listenerAfter` follows is set. -/
theorem listenerAfter_isSome (pb : ProtobufRuntime) : ∀ (calls : List SessionCall)
    (a : ProtobufWireAdapter) (listener : Option MessageListenerPtr) (a1 : ProtobufWireAdapter),
    a.listener_ = listener.isSome → (a.performAll pb calls).1 = some a1 →
    a1.listener_ = (a.listenerAfter pb listener calls).isSome := by
  intro calls
  induction calls with
  | nil =>
    intro a listener a1 h hrun
    simp only [performAll, Option.some.injEq] at hrun
    subst hrun
    simpa [listenerAfter] using h
  | cons call rest ih =>
    intro a listener a1 h hrun
    cases hp : a.perform pb call with
    | none => simp [performAll, hp] at hrun
    | some r =>
      obtain ⟨a2, calls1⟩ := r
      have hl := perform_listener pb a a2 call calls1 hp
      simp only [performAll, hp] at hrun
      cases call <;> simp only [listenerAfter, hp] <;>
        exact ih a2 _ a1 (by simp_all) hrun

/-- The ping from the largest `int32_t` counter: the increment wraps to the smallest
value and `CHECK_GE(sequence_number, 0)` aborts before any call is made. -/
theorem SendPing_overflow :
    DeviceSession.SendPing { ping_counter_ := 2147483647 } = none := by
  have hw : int32_t (2147483647 + 1) = -2147483648 := by decide
  have hneg : (-2147483648 : Int) < 0 := by decide
  show DeviceSession.SendRequestWithSequence { ping_counter_ := int32_t (2147483647 + 1) }
    RequestMessage.default_instance (int32_t (2147483647 + 1)) = none
  rw [hw]
  unfold DeviceSession.SendRequestWithSequence
  exact if_pos hneg

/-- Consecutive pings abort when the first one does. -/
theorem SendPingTimes_of_SendPing_none (m : Nat) (s : DeviceSession)
    (h : s.SendPing = none) : DeviceSession.SendPingTimes (m + 1) s = none := by
  rewrite [DeviceSession.SendPingTimes, h]
  rfl

/-- Consecutive pings abort when those after the first one do. -/
theorem SendPingTimes_of_rest_none (m : Nat) (s s1 : DeviceSession)
    (calls1 : List SessionCall) (h1 : s.SendPing = some (s1, calls1))
    (h2 : DeviceSession.SendPingTimes m s1 = none) :
    DeviceSession.SendPingTimes (m + 1) s = none := by
  rewrite [DeviceSession.SendPingTimes, h1]
  simp only [h2]

/-- Pings from counter `c` that go one past the largest `int32_t` value abort. -/
theorem SendPingTimes_overflow : ∀ (m : Nat) (c : Nat), c + (m + 1) = 2147483648 →
    DeviceSession.SendPingTimes (m + 1) { ping_counter_ := (c : Int) } = none := by
  intro m
  induction m with
  | zero =>
    intro c h
    have hci : (c : Int) = 2147483647 := by omega
    have hover := SendPing_overflow
    rewrite [← hci] at hover
    exact SendPingTimes_of_SendPing_none 0 _ hover
  | succ m ih =>
    intro c h
    have hstep := SendPing_step (c : Int) (by omega) (by norm_num; omega)
    have hrec := ih (c + 1) (by omega)
    have hcast : ((c : Int) + 1) = ((c + 1 : Nat) : Int) := by push_cast; rfl
    rewrite [hcast] at hstep
    exact SendPingTimes_of_rest_none (m + 1) _ _ _ hstep hrec

/-! ## The properties -/

/-- C1: the buffer that `SendMessage` hands to the interface, delivered to an adapter
that has just been given a listener and initialised, in the chunks that adapter asks for
(the preamble one byte per chunk, then the body as one chunk), is answered without any
`OnError` by one `OnMessage` carrying the message that was sent, provided parsing
inverts serialising on it; the receive requests are exactly the chunk sizes followed by
a last request of 1 byte for the next message. The size of the buffer,
`VarintSize32(n) + n` for a serialised size `n`, is an `int` in the source, so it is
taken below `2 ^ 31`. -/
theorem SendMessage_deliver_round_trip (pb : ProtobufRuntime) (sender : ProtobufWireAdapter)
    (message : RemoteMessage) (hinit : sender.initialized_ = true)
    (hsize : VarintSize32 (pb.ByteSize message) + pb.ByteSize message < 2 ^ 31)
    (hinverse : pb.ParseFromArray (pb.SerializeToCodedStream message) = (true, message)) :
    ∃ (buffer : List Byte) (receiver : ProtobufWireAdapter),
      sender.SendMessage pb message = some (sender, [WireCall.Send buffer]) ∧
      ProtobufWireAdapter.new.set_listener.Init = some (receiver, [WireCall.Receive 1]) ∧
      receiver.deliver pb (preambleChunks (VarintSize32 (pb.ByteSize message)) buffer) =
        (receiver, List.replicate (VarintSize32 (pb.ByteSize message) - 1) (WireCall.Receive 1) ++
          [WireCall.Receive (pb.ByteSize message), WireCall.OnMessage message,
            WireCall.Receive 1]) ∧
      requestedSizes (WireCall.Receive 1 ::
          (receiver.deliver pb (preambleChunks (VarintSize32 (pb.ByteSize message)) buffer)).2) =
        (preambleChunks (VarintSize32 (pb.ByteSize message)) buffer).map List.length ++ [1] := by
  have hn : pb.ByteSize message < 2 ^ 32 := by omega
  have hchunks : preambleChunks (VarintSize32 (pb.ByteSize message))
      (WriteVarint32 (pb.ByteSize message) ++ pb.SerializeToCodedStream message) =
      (WriteVarint32 (pb.ByteSize message)).map (fun b => [b]) ++
        [pb.SerializeToCodedStream message] := by
    simp [preambleChunks, ← WriteVarint32_length]
  have hpos : 1 ≤ VarintSize32 (pb.ByteSize message) := by
    unfold VarintSize32
    simp only
    split_ifs <;> omega
  have hpre := WriteVarint32_deliver_preamble pb ⟨true, true, ReadState.kPreamble, 0, 0⟩
    (pb.ByteSize message) rfl rfl rfl hn
  have hbody := OnBytesReceived_message pb ⟨true, true, ReadState.kMessage, 0, 0⟩
    (pb.SerializeToCodedStream message) rfl rfl
  have hrun : ProtobufWireAdapter.deliver pb ⟨true, true, ReadState.kPreamble, 0, 0⟩
      ((WriteVarint32 (pb.ByteSize message)).map (fun b => [b]) ++
        [pb.SerializeToCodedStream message]) =
      (⟨true, true, ReadState.kPreamble, 0, 0⟩,
        List.replicate (VarintSize32 (pb.ByteSize message) - 1) (WireCall.Receive 1) ++
          [WireCall.Receive (pb.ByteSize message), WireCall.OnMessage message,
            WireCall.Receive 1]) := by
    rw [deliver_append, hpre]
    simp only [deliver, hbody, hinverse, List.append_nil, List.append_assoc, List.singleton_append]
  refine ⟨WriteVarint32 (pb.ByteSize message) ++ pb.SerializeToCodedStream message,
    ⟨true, true, ReadState.kPreamble, 0, 0⟩, SendMessage_buffer pb sender message hinit, rfl, ?_, ?_⟩
  · rw [hchunks, hrun]
  · rw [hchunks, hrun]
    have hrep : (1 : Nat) :: List.replicate (VarintSize32 (pb.ByteSize message) - 1) 1 =
        List.replicate (VarintSize32 (pb.ByteSize message)) 1 := by
      rw [← List.replicate_succ]
      congr 1
      omega
    have hmap : List.map List.length ((WriteVarint32 (pb.ByteSize message)).map (fun b => [b])) =
        List.replicate (VarintSize32 (pb.ByteSize message)) 1 := by
      rw [← WriteVarint32_length]
      simp [List.map_map, List.eq_replicate_iff]
    have hcons : ∀ (n : Nat) (cs : List WireCall),
        requestedSizes (WireCall.Receive n :: cs) = n :: requestedSizes cs := by
      intro n cs; simp [requestedSizes]
    rw [hcons, requestedSizes_append, requestedSizes_replicate, List.map_append, hmap,
      ← List.cons_append, hrep]
    simp [requestedSizes, ProtobufRuntime.ByteSize]

theorem SendMessage_deliver_round_trip_witness :
    (⟨true, true, ReadState.kPreamble, 0, 0⟩ : ProtobufWireAdapter).initialized_ = true ∧
    VarintSize32 (ProtobufRuntime.ByteSize
        ⟨fun _ => [8, 123], fun _ => (true, ⟨some 123, none, none⟩)⟩ ⟨some 123, none, none⟩) +
      ProtobufRuntime.ByteSize
        ⟨fun _ => [8, 123], fun _ => (true, ⟨some 123, none, none⟩)⟩ ⟨some 123, none, none⟩
        < 2 ^ 31 ∧
    (fun _ => (true, ⟨some 123, none, none⟩) : List Byte → Bool × RemoteMessage)
        ((fun _ => [8, 123] : RemoteMessage → List Byte) ⟨some 123, none, none⟩)
      = (true, ⟨some 123, none, none⟩) ∧
    ∃ (buffer : List Byte) (receiver : ProtobufWireAdapter),
      ProtobufWireAdapter.SendMessage ⟨fun _ => [8, 123], fun _ => (true, ⟨some 123, none, none⟩)⟩
        ⟨true, true, ReadState.kPreamble, 0, 0⟩ ⟨some 123, none, none⟩ =
          some (⟨true, true, ReadState.kPreamble, 0, 0⟩, [WireCall.Send buffer]) ∧
      ProtobufWireAdapter.new.set_listener.Init = some (receiver, [WireCall.Receive 1]) ∧
      receiver.deliver ⟨fun _ => [8, 123], fun _ => (true, ⟨some 123, none, none⟩)⟩
          (preambleChunks 1 buffer) =
        (receiver, [WireCall.Receive 2, WireCall.OnMessage ⟨some 123, none, none⟩,
          WireCall.Receive 1]) ∧
      requestedSizes (WireCall.Receive 1 ::
          (receiver.deliver ⟨fun _ => [8, 123], fun _ => (true, ⟨some 123, none, none⟩)⟩
            (preambleChunks 1 buffer)).2) =
        (preambleChunks 1 buffer).map List.length ++ [1] :=
  ⟨rfl, by decide, rfl,
    SendMessage_deliver_round_trip ⟨fun _ => [8, 123], fun _ => (true, ⟨some 123, none, none⟩)⟩
      ⟨true, true, ReadState.kPreamble, 0, 0⟩ ⟨some 123, none, none⟩ rfl (by decide) rfl⟩

/-- C3: for `k ≤ 4` bytes with the high bit set followed by one byte with the high bit
clear, of value `v < 2 ^ 32`, delivered one byte per chunk to an adapter that waits for a
preamble with both preamble fields zero: each of the first `k` chunks is answered by
`Receive(1)`, the last by `Receive(v)`, no error is reported, and the adapter then waits
for the message with both preamble fields zero again. -/
theorem deliver_preamble_requests_length (pb : ProtobufRuntime) (a : ProtobufWireAdapter)
    (pre : List Byte) (last : Byte) (hstate : a.read_state_ = ReadState.kPreamble)
    (hacc : a.preamble_ = 0) (hnum : a.preamble_num_bytes_ = 0) (hk : pre.length ≤ 4)
    (hpre : ∀ b ∈ pre, b.val &&& 0x80 ≠ 0) (hlast : last.val &&& 0x80 = 0)
    (hv : varintValue (pre ++ [last]) < 2 ^ 32) :
    (∀ j, j ≤ pre.length →
      (a.deliver pb ((pre.take j).map fun b => [b])).2 = List.replicate j (WireCall.Receive 1)) ∧
    a.deliver pb ((pre ++ [last]).map fun b => [b]) =
      ({ a with read_state_ := ReadState.kMessage, preamble_ := 0, preamble_num_bytes_ := 0 },
        List.replicate pre.length (WireCall.Receive 1) ++
          [WireCall.Receive (varintValue (pre ++ [last]))]) := by
  have hpre1 : ∀ b ∈ pre, 128 ≤ b.val := by
    intro b hb
    have h1 := hpre b hb
    have h2 := byte_and_80 b
    by_contra hlt
    exact h1 (h2.mpr (by omega))
  exact ⟨fun j hj => deliver_continuation_take pb pre a hstate hacc hnum hk hpre1 j hj,
    deliver_preamble pb a pre last hstate hacc hnum hk hpre1 ((byte_and_80 last).mp hlast) hv⟩

set_option maxRecDepth 4096 in
theorem deliver_preamble_requests_length_witness :
    (⟨true, true, ReadState.kPreamble, 0, 0⟩ : ProtobufWireAdapter).read_state_
      = ReadState.kPreamble ∧
    (⟨true, true, ReadState.kPreamble, 0, 0⟩ : ProtobufWireAdapter).preamble_ = 0 ∧
    (⟨true, true, ReadState.kPreamble, 0, 0⟩ : ProtobufWireAdapter).preamble_num_bytes_ = 0 ∧
    ([0x80, 0x80] : List Byte).length ≤ 4 ∧
    (∀ b ∈ ([0x80, 0x80] : List Byte), b.val &&& 0x80 ≠ 0) ∧
    (0x11 : Byte).val &&& 0x80 = 0 ∧
    varintValue ([0x80, 0x80] ++ [0x11]) < 2 ^ 32 ∧
    ProtobufWireAdapter.deliver ⟨fun _ => [], fun _ => (true, ⟨none, none, none⟩)⟩
      ⟨true, true, ReadState.kPreamble, 0, 0⟩ [[0x80], [0x80], [0x11]] =
      (⟨true, true, ReadState.kMessage, 0, 0⟩,
        [WireCall.Receive 1, WireCall.Receive 1, WireCall.Receive 278528]) :=
  ⟨rfl, rfl, rfl, by decide, by decide, by decide, by decide,
    (deliver_preamble_requests_length ⟨fun _ => [], fun _ => (true, ⟨none, none, none⟩)⟩
      ⟨true, true, ReadState.kPreamble, 0, 0⟩ [0x80, 0x80] 0x11 rfl rfl rfl (by decide)
      (by decide) (by decide) (by decide)).2⟩

/-- C4: for every length `n` with `0 ≤ n ≤ 2 ^ 32 - 1` (the five-byte encodings of
`n ≥ 2 ^ 28` included), the bytes of `WriteVarint32 n`, delivered one per chunk to an
adapter at the start of the preamble state, end with the adapter requesting exactly `n`
bytes; before that it requests one byte per chunk and it never reports an error. -/
theorem WriteVarint32_deliver_requests_same_length (pb : ProtobufRuntime)
    (a : ProtobufWireAdapter) (n : Nat) (hstate : a.read_state_ = ReadState.kPreamble)
    (hacc : a.preamble_ = 0) (hnum : a.preamble_num_bytes_ = 0) (hn : n < 2 ^ 32) :
    a.deliver pb ((WriteVarint32 n).map fun b => [b]) =
      ({ a with read_state_ := ReadState.kMessage, preamble_ := 0, preamble_num_bytes_ := 0 },
        List.replicate (VarintSize32 n - 1) (WireCall.Receive 1) ++ [WireCall.Receive n]) :=
  WriteVarint32_deliver_preamble pb a n hstate hacc hnum hn

theorem WriteVarint32_deliver_requests_same_length_witness :
    (⟨true, true, ReadState.kPreamble, 0, 0⟩ : ProtobufWireAdapter).read_state_
      = ReadState.kPreamble ∧
    (⟨true, true, ReadState.kPreamble, 0, 0⟩ : ProtobufWireAdapter).preamble_ = 0 ∧
    (⟨true, true, ReadState.kPreamble, 0, 0⟩ : ProtobufWireAdapter).preamble_num_bytes_ = 0 ∧
    4294967295 < 2 ^ 32 ∧
    ProtobufWireAdapter.deliver ⟨fun _ => [], fun _ => (true, ⟨none, none, none⟩)⟩
      ⟨true, true, ReadState.kPreamble, 0, 0⟩ [[255], [255], [255], [255], [15]] =
      (⟨true, true, ReadState.kMessage, 0, 0⟩,
        [WireCall.Receive 1, WireCall.Receive 1, WireCall.Receive 1, WireCall.Receive 1,
          WireCall.Receive 4294967295]) :=
  ⟨rfl, rfl, rfl, by decide,
    WriteVarint32_deliver_requests_same_length
      ⟨fun _ => [], fun _ => (true, ⟨none, none, none⟩)⟩
      ⟨true, true, ReadState.kPreamble, 0, 0⟩ 4294967295 rfl rfl rfl (by decide)⟩

/-- C5: five bytes that all have the high bit set, delivered one per chunk to an adapter
with a listener at the start of the preamble state: each of the first four is answered
by `Receive(1)`; the fifth makes the adapter call the listener's `OnError` once and
issue no receive request. -/
theorem deliver_five_continuation_bytes (pb : ProtobufRuntime) (a : ProtobufWireAdapter)
    (b0 b1 b2 b3 b4 : Byte) (hstate : a.read_state_ = ReadState.kPreamble)
    (hacc : a.preamble_ = 0) (hnum : a.preamble_num_bytes_ = 0) (hl : a.listener_ = true)
    (h0 : b0.val &&& 0x80 ≠ 0) (h1 : b1.val &&& 0x80 ≠ 0) (h2 : b2.val &&& 0x80 ≠ 0)
    (h3 : b3.val &&& 0x80 ≠ 0) (h4 : b4.val &&& 0x80 ≠ 0) :
    (∀ j, j ≤ 4 →
      (a.deliver pb (([b0, b1, b2, b3].take j).map fun b => [b])).2 =
        List.replicate j (WireCall.Receive 1)) ∧
    ((a.deliver pb [[b0], [b1], [b2], [b3]]).1.OnBytesReceived pb [b4]).2 = [WireCall.OnError] ∧
    (a.deliver pb [[b0], [b1], [b2], [b3], [b4]]).2 =
      [WireCall.Receive 1, WireCall.Receive 1, WireCall.Receive 1, WireCall.Receive 1,
        WireCall.OnError] := by
  have hge : ∀ b : Byte, b.val &&& 0x80 ≠ 0 → 128 ≤ b.val := by
    intro b hb
    have h := byte_and_80 b
    by_contra hlt
    exact hb (h.mpr (by omega))
  have hall : ∀ b ∈ [b0, b1, b2, b3], 128 ≤ b.val := by
    intro b hb
    simp only [List.mem_cons, List.mem_singleton, List.not_mem_nil, or_false] at hb
    rcases hb with rfl | rfl | rfl | rfl
    · exact hge _ h0
    · exact hge _ h1
    · exact hge _ h2
    · exact hge _ h3
  have hcont := deliver_continuation pb [b0, b1, b2, b3] a hstate (by rw [hacc, hnum]; decide)
    (by rw [hnum]; simp) hall
  have hcont1 : a.deliver pb [[b0], [b1], [b2], [b3]] = _ := hcont
  have hfifth := HandlePreambleByte_fifth
    { a with preamble_ := a.preamble_ + 128 ^ a.preamble_num_bytes_ * varintValue [b0, b1, b2, b3],
             preamble_num_bytes_ := a.preamble_num_bytes_ + [b0, b1, b2, b3].length }
    b4 (by simp [hnum]) hl (hge _ h4)
  have hrecv := OnBytesReceived_preamble pb
    { a with preamble_ := a.preamble_ + 128 ^ a.preamble_num_bytes_ * varintValue [b0, b1, b2, b3],
             preamble_num_bytes_ := a.preamble_num_bytes_ + [b0, b1, b2, b3].length }
    b4 hstate
  refine ⟨fun j hj => deliver_continuation_take pb [b0, b1, b2, b3] a hstate hacc hnum
    (by simp) hall j hj, ?_, ?_⟩
  · rw [hcont1, hrecv, hfifth]
  · have happ := deliver_append pb [[b0], [b1], [b2], [b3]] [[b4]] a
    have hlist : [[b0], [b1], [b2], [b3], [b4]] = [[b0], [b1], [b2], [b3]] ++ [[b4]] := rfl
    rw [hlist, happ, hcont1]
    simp only [deliver, hrecv, hfifth, List.append_nil]
    rfl

theorem deliver_five_continuation_bytes_witness :
    (⟨true, true, ReadState.kPreamble, 0, 0⟩ : ProtobufWireAdapter).read_state_
      = ReadState.kPreamble ∧
    (⟨true, true, ReadState.kPreamble, 0, 0⟩ : ProtobufWireAdapter).preamble_ = 0 ∧
    (⟨true, true, ReadState.kPreamble, 0, 0⟩ : ProtobufWireAdapter).preamble_num_bytes_ = 0 ∧
    (⟨true, true, ReadState.kPreamble, 0, 0⟩ : ProtobufWireAdapter).listener_ = true ∧
    (0x80 : Byte).val &&& 0x80 ≠ 0 ∧ (0xFF : Byte).val &&& 0x80 ≠ 0 ∧
    (ProtobufWireAdapter.deliver ⟨fun _ => [], fun _ => (true, ⟨none, none, none⟩)⟩
      ⟨true, true, ReadState.kPreamble, 0, 0⟩ [[0x80], [0x80], [0x80], [0x80], [0xFF]]).2 =
      [WireCall.Receive 1, WireCall.Receive 1, WireCall.Receive 1, WireCall.Receive 1,
        WireCall.OnError] :=
  ⟨rfl, rfl, rfl, rfl, by decide, by decide,
    (deliver_five_continuation_bytes ⟨fun _ => [], fun _ => (true, ⟨none, none, none⟩)⟩
      ⟨true, true, ReadState.kPreamble, 0, 0⟩ 0x80 0x80 0x80 0x80 0xFF rfl rfl rfl rfl
      (by decide) (by decide) (by decide) (by decide) (by decide)).2.2⟩

/-- C6: a chunk that deserialises to the message `e`, delivered while an adapter with a
listener waits for a message body, produces exactly two calls, first `OnMessage(e)` on
the listener and then `Receive(1)` on the interface; afterwards the adapter waits for a
preamble with both preamble fields zero. -/
theorem OnBytesReceived_body_dispatches_then_receives (pb : ProtobufRuntime)
    (a : ProtobufWireAdapter) (data : List Byte) (e : RemoteMessage)
    (hreach : Reachable a) (hstate : a.read_state_ = ReadState.kMessage)
    (hl : a.listener_ = true) (hparse : pb.ParseFromArray data = (true, e)) :
    a.OnBytesReceived pb data =
      ({ a with read_state_ := ReadState.kPreamble, preamble_ := 0, preamble_num_bytes_ := 0 },
        [WireCall.OnMessage e, WireCall.Receive 1]) := by
  obtain ⟨hacc, hnum⟩ := hreach.preamble_reset hstate
  rw [OnBytesReceived_message pb a data hstate hl, hparse, hacc, hnum]

theorem OnBytesReceived_body_dispatches_then_receives_witness :
    Reachable ⟨true, true, ReadState.kMessage, 0, 0⟩ ∧
    (⟨true, true, ReadState.kMessage, 0, 0⟩ : ProtobufWireAdapter).read_state_
      = ReadState.kMessage ∧
    (⟨true, true, ReadState.kMessage, 0, 0⟩ : ProtobufWireAdapter).listener_ = true ∧
    (fun _ => (true, ⟨some 123, none, none⟩) : List Byte → Bool × RemoteMessage) [8, 123]
      = (true, ⟨some 123, none, none⟩) ∧
    ProtobufWireAdapter.OnBytesReceived ⟨fun _ => [8, 123], fun _ => (true, ⟨some 123, none, none⟩)⟩
      ⟨true, true, ReadState.kMessage, 0, 0⟩ [8, 123] =
      (⟨true, true, ReadState.kPreamble, 0, 0⟩,
        [WireCall.OnMessage ⟨some 123, none, none⟩, WireCall.Receive 1]) :=
  have hreach : Reachable ⟨true, true, ReadState.kMessage, 0, 0⟩ :=
    Reachable.OnBytesReceived ⟨fun _ => [8, 123], fun _ => (true, ⟨some 123, none, none⟩)⟩ [2]
      (@Reachable.Init _ _ [WireCall.Receive 1] (Reachable.set_listener Reachable.new) rfl)
  ⟨hreach, rfl, rfl, rfl,
    OnBytesReceived_body_dispatches_then_receives
      ⟨fun _ => [8, 123], fun _ => (true, ⟨some 123, none, none⟩)⟩
      ⟨true, true, ReadState.kMessage, 0, 0⟩ [8, 123] ⟨some 123, none, none⟩ hreach rfl rfl rfl⟩

/-- C7: an inbound message whose response (present or not) has neither a data message
nor a fling result, and whose sequence number is present and not 0, makes the session
call `OnAck` once and nothing else. -/
theorem OnMessage_ack (s : DeviceSession) (sequence_number : Nat)
    (request : Option RequestMessage) (response : Option ResponseMessage)
    (hseq : sequence_number ≠ 0)
    (hresponse : response = none ∨ response = some ⟨none, none⟩) :
    s.OnMessage ⟨some sequence_number, request, response⟩ = (s, [SessionCall.OnAck]) := by
  rcases hresponse with rfl | rfl <;>
    simp [DeviceSession.OnMessage, ResponseMessage.default_instance, hseq]

theorem OnMessage_ack_witness :
    (123 : Nat) ≠ 0 ∧
    ((none : Option ResponseMessage) = none ∨
      (none : Option ResponseMessage) = some ⟨none, none⟩) ∧
    DeviceSession.OnMessage DeviceSession.new ⟨some 123, none, none⟩ =
      (DeviceSession.new, [SessionCall.OnAck]) :=
  ⟨by decide, Or.inl rfl,
    OnMessage_ack DeviceSession.new 123 none none (by decide) (Or.inl rfl)⟩

/-- C8: an inbound message whose response has a data message `(type, payload)` and no
fling result makes the session call exactly `OnData(type, payload)`, with both strings
as received, whatever the sequence number; `OnAck` is not called. -/
theorem OnMessage_data (s : DeviceSession) (sequence_number : Option Nat)
    (request : Option RequestMessage) (type payload : String) :
    s.OnMessage ⟨sequence_number, request, some ⟨some ⟨type, payload⟩, none⟩⟩ =
      (s, [SessionCall.OnData type payload]) := by
  simp [DeviceSession.OnMessage]

/-- C9: an inbound message whose response has a fling result and no data message makes
the session call exactly `OnFlingResult(succeeded, n)`, where `succeeded` is true exactly
when the result is `SUCCESS` and `n` is the sequence number of the message, or 0 when it
has none. -/
theorem OnMessage_fling_result (s : DeviceSession) (sequence_number : Option Nat)
    (request : Option RequestMessage) (result : FlingResult_Result) :
    s.OnMessage ⟨sequence_number, request, some ⟨none, some ⟨result⟩⟩⟩ =
      (s, [SessionCall.OnFlingResult (decide (result = FlingResult_Result.SUCCESS))
        (sequence_number.getD 0)]) := by
  cases sequence_number <;> simp [DeviceSession.OnMessage]

/-- C10: an inbound message whose response (present or not) has neither a data message
nor a fling result, and whose sequence number is absent or 0, makes the session call
nothing at all. -/
theorem OnMessage_silent_drop (s : DeviceSession) (sequence_number : Option Nat)
    (request : Option RequestMessage) (response : Option ResponseMessage)
    (hseq : sequence_number = none ∨ sequence_number = some 0)
    (hresponse : response = none ∨ response = some ⟨none, none⟩) :
    s.OnMessage ⟨sequence_number, request, response⟩ = (s, []) := by
  rcases hseq with rfl | rfl <;> rcases hresponse with rfl | rfl <;>
    simp [DeviceSession.OnMessage, ResponseMessage.default_instance]

theorem OnMessage_silent_drop_witness :
    ((some 0 : Option Nat) = none ∨ (some 0 : Option Nat) = some 0) ∧
    ((some ⟨none, none⟩ : Option ResponseMessage) = none ∨
      (some ⟨none, none⟩ : Option ResponseMessage) = some ⟨none, none⟩) ∧
    DeviceSession.OnMessage DeviceSession.new ⟨some 0, none, some ⟨none, none⟩⟩ =
      (DeviceSession.new, []) :=
  ⟨Or.inr rfl, Or.inr rfl,
    OnMessage_silent_drop DeviceSession.new (some 0) none (some ⟨none, none⟩)
      (Or.inr rfl) (Or.inr rfl)⟩

/-- C11, as stated, fails for `m = 2 ^ 31`: the first `2 ^ 31 - 1` pings of a new session
send the sequence numbers `1, ..., 2 ^ 31 - 1` and leave the `int32_t` counter at its
largest value; the next ping increments it past that value, the counter wraps to
`-2 ^ 31`, and `CHECK_GE(sequence_number, 0)` aborts: no message with sequence number
`2 ^ 31` is handed to the adapter, and `2 ^ 31` consecutive pings do not complete. -/
theorem ping_numbering_counterexample :
    DeviceSession.SendPingTimes 2147483647 DeviceSession.new =
      some ({ ping_counter_ := 2147483647 },
        (List.range 2147483647).map fun j =>
          SessionCall.SendMessage
            { sequence_number := some (j + 1),
              request_message := some RequestMessage.default_instance,
              response_message := none }) ∧
    DeviceSession.SendPing { ping_counter_ := 2147483647 } = none ∧
    DeviceSession.SendPingTimes 2147483648 DeviceSession.new = none := by
  refine ⟨?_, SendPing_overflow, ?_⟩
  · have h := SendPingTimes_from 2147483647 0 (by norm_num)
    simp only [Nat.zero_add, Nat.cast_zero, Nat.cast_ofNat] at h
    exact h
  · have h := SendPingTimes_overflow 2147483647 0 (by norm_num)
    simp only [Nat.reduceAdd, Nat.cast_zero] at h
    exact h

/-- C11, amended: `m` consecutive `SendPing` calls on a new session, for `m` up to the
largest `int32_t` value `2 ^ 31 - 1`: the `k`-th call (`1 ≤ k ≤ m`) hands the adapter
exactly one message, with sequence number `k` and an empty request, so the sequence
numbers used are `1, 2, ..., m` in this order. -/
theorem SendPing_numbers_from_one (m : Nat) (hm : m < 2 ^ 31) :
    DeviceSession.SendPingTimes m DeviceSession.new =
      some ({ ping_counter_ := (m : Int) },
        (List.range m).map fun j =>
          SessionCall.SendMessage
            { sequence_number := some (j + 1),
              request_message := some RequestMessage.default_instance,
              response_message := none }) ∧
    ∀ k, 1 ≤ k → k ≤ m →
      ((List.range m).map fun j =>
          SessionCall.SendMessage
            { sequence_number := some (j + 1),
              request_message := some RequestMessage.default_instance,
              response_message := none })[k - 1]? =
        some (SessionCall.SendMessage
          { sequence_number := some k,
            request_message := some RequestMessage.default_instance,
            response_message := none }) := by
  constructor
  · have h := SendPingTimes_from m 0 (by norm_num at hm ⊢; exact hm)
    simpa [DeviceSession.new] using h
  · intro k hk1 hkm
    have hlt : k - 1 < m := by omega
    have hk : k - 1 + 1 = k := by omega
    simp [List.getElem?_map, List.getElem?_range hlt, hk]

theorem SendPing_numbers_from_one_witness :
    2 < 2 ^ 31 ∧
    DeviceSession.SendPingTimes 2 DeviceSession.new =
      some ({ ping_counter_ := 2 },
        [SessionCall.SendMessage ⟨some 1, some RequestMessage.default_instance, none⟩,
          SessionCall.SendMessage ⟨some 2, some RequestMessage.default_instance, none⟩]) :=
  ⟨by decide, (SendPing_numbers_from_one 2 (by decide)).1⟩

/-- C12: for every uri and every `n < 0`, `SendFling(uri, n)` aborts on
`CHECK_GE(sequence_number, 0)` before any call is made: no message is handed to the
adapter. -/
theorem SendFling_negative_aborts (s : DeviceSession) (uri : String) (n : Int) (hn : n < 0) :
    s.SendFling uri n = none := by
  simp [DeviceSession.SendFling, DeviceSession.SendRequestWithSequence, hn]

theorem SendFling_negative_aborts_witness :
    (-1 : Int) < 0 ∧ DeviceSession.SendFling DeviceSession.new "http://foo" (-1) = none :=
  ⟨by decide, SendFling_negative_aborts DeviceSession.new "http://foo" (-1) (by decide)⟩

/-- C13: for every uri and every `int32_t` `n ≥ 0`, `SendFling(uri, n)` hands the
adapter exactly one message; its request holds the fling of `uri` and nothing else, its
sequence number is `n` when `n > 0` and is not set when `n = 0`. -/
theorem SendFling_non_negative (s : DeviceSession) (uri : String) (n : Int)
    (h0 : 0 ≤ n) (h1 : n < 2 ^ 31) :
    s.SendFling uri n =
      some (s, [SessionCall.SendMessage
        { sequence_number := if n = 0 then none else some n.toNat,
          request_message := some
            { key_event_message := none, mouse_event_message := none,
              mouse_wheel_message := none, data_message := none, connect_message := none,
              fling_message := some { uri := uri } },
          response_message := none }]) := by
  have hneg : ¬ (n < 0) := by omega
  have hmod : n % 4294967296 = n := Int.emod_eq_of_lt h0 (by omega)
  by_cases hz : n = 0
  · subst hz
    simp [DeviceSession.SendFling, DeviceSession.SendRequestWithSequence,
      RequestMessage.default_instance]
  · simp [DeviceSession.SendFling, DeviceSession.SendRequestWithSequence,
      RequestMessage.default_instance, hneg, hz, hmod]

theorem SendFling_non_negative_witness :
    (0 : Int) ≤ 123 ∧ (123 : Int) < 2 ^ 31 ∧
    DeviceSession.SendFling DeviceSession.new "http://foo" 123 =
      some (DeviceSession.new, [SessionCall.SendMessage
        ⟨some 123, some ⟨none, none, none, none, none, some ⟨"http://foo"⟩⟩, none⟩]) :=
  ⟨by decide, by decide,
    SendFling_non_negative DeviceSession.new "http://foo" 123 (by decide) (by decide)⟩

/-- C14: each of `SendKeyEvent`, `SendMouseMove`, `SendMouseWheel`, `SendData` and
`SendConnect` hands the adapter exactly one message, without a sequence number, whose
request holds the matching field with the arguments as given (negative deltas
included) and no other field. -/
theorem Send_without_sequence_number (s : DeviceSession) (keycode action : Nat)
    (x_delta y_delta x_scroll y_scroll version : Int) (type data device_name : String) :
    s.SendKeyEvent keycode action = some (s, [SessionCall.SendMessage
      ⟨none, some ⟨some ⟨keycode, action⟩, none, none, none, none, none⟩, none⟩]) ∧
    s.SendMouseMove x_delta y_delta = some (s, [SessionCall.SendMessage
      ⟨none, some ⟨none, some ⟨x_delta, y_delta⟩, none, none, none, none⟩, none⟩]) ∧
    s.SendMouseWheel x_scroll y_scroll = some (s, [SessionCall.SendMessage
      ⟨none, some ⟨none, none, some ⟨x_scroll, y_scroll⟩, none, none, none⟩, none⟩]) ∧
    s.SendData type data = some (s, [SessionCall.SendMessage
      ⟨none, some ⟨none, none, none, some ⟨type, data⟩, none, none⟩, none⟩]) ∧
    s.SendConnect device_name version = some (s, [SessionCall.SendMessage
      ⟨none, some ⟨none, none, none, none, some ⟨device_name, version⟩, none⟩, none⟩]) := by
  refine ⟨?_, ?_, ?_, ?_, ?_⟩ <;>
    simp [DeviceSession.SendKeyEvent, DeviceSession.SendMouseMove, DeviceSession.SendMouseWheel,
      DeviceSession.SendData, DeviceSession.SendConnect, DeviceSession.SendRequest,
      DeviceSession.SendRequestWithSequence, RequestMessage.default_instance]

/-- C15: `StartSession` on a new session calls `set_listener(this)`, the listener passed
being the session itself, and then `Init()` on its adapter; on a newly constructed
`ProtobufWireAdapter`, whose listener pointer is NULL, these two calls leave that pointer
set and pointing to the session (not to any other listener), cause exactly one call on
the interface, `Receive(1)`, and leave the adapter initialised, waiting for a preamble,
with both preamble fields zero. -/
theorem StartSession_on_new_adapter (pb : ProtobufRuntime) :
    DeviceSession.new.StartSession =
      (DeviceSession.new,
        [SessionCall.set_listener MessageListenerPtr.self, SessionCall.Init]) ∧
    ProtobufWireAdapter.new.performAll pb DeviceSession.new.StartSession.2 =
      (some { listener_ := true, initialized_ := true, read_state_ := ReadState.kPreamble,
              preamble_ := 0, preamble_num_bytes_ := 0 },
        [WireCall.Receive 1]) ∧
    ProtobufWireAdapter.new.listener_ = false ∧
    ProtobufWireAdapter.new.listenerAfter pb none DeviceSession.new.StartSession.2 =
      some MessageListenerPtr.self ∧
    ∀ address, ProtobufWireAdapter.new.listenerAfter pb none DeviceSession.new.StartSession.2 ≠
      some (MessageListenerPtr.other address) :=
  ⟨rfl, rfl, rfl, rfl, fun _ h => by cases h⟩

/-- C16: every chunk delivered to an adapter with a listener that is idle (no read in
progress, as before `Init`), and every chunk whose size is not 1 (the empty chunk
included) delivered while it waits for a preamble byte, makes the adapter call the
listener's `OnError` once and nothing else: no message is dispatched, no receive
request is issued, and the adapter is left as it was. -/
theorem OnBytesReceived_unexpected (pb : ProtobufRuntime) (a : ProtobufWireAdapter)
    (data : List Byte) (hl : a.listener_ = true)
    (hcase : a.read_state_ = ReadState.kNone ∨
      (a.read_state_ = ReadState.kPreamble ∧ data.length ≠ 1)) :
    a.OnBytesReceived pb data = (a, [WireCall.OnError]) :=
  OnBytesReceived_error_only pb a data hl hcase

theorem OnBytesReceived_unexpected_witness :
    ProtobufWireAdapter.new.set_listener.listener_ = true ∧
    (ProtobufWireAdapter.new.set_listener.read_state_ = ReadState.kNone ∨
      (ProtobufWireAdapter.new.set_listener.read_state_ = ReadState.kPreamble ∧
        ([9] : List Byte).length ≠ 1)) ∧
    ProtobufWireAdapter.new.set_listener.OnBytesReceived
        ⟨fun _ => [], fun _ => (true, ⟨none, none, none⟩)⟩ [9] =
      (ProtobufWireAdapter.new.set_listener, [WireCall.OnError]) :=
  ⟨rfl, Or.inl rfl,
    OnBytesReceived_unexpected ⟨fun _ => [], fun _ => (true, ⟨none, none, none⟩)⟩
      ProtobufWireAdapter.new.set_listener [9] rfl (Or.inl rfl)⟩

/-- C17, as stated, fails: the adapter has requested 9 bytes and is handed a chunk of 2
bytes; it does not call `OnError`, it dispatches what the parser returns and requests
the next preamble byte. -/
theorem body_size_check_counterexample :
    ProtobufWireAdapter.deliver ⟨fun _ => [8, 123], fun _ => (true, ⟨some 123, none, none⟩)⟩
        ⟨true, true, ReadState.kPreamble, 0, 0⟩ [[9]] =
      (⟨true, true, ReadState.kMessage, 0, 0⟩, [WireCall.Receive 9]) ∧
    ([8, 123] : List Byte).length ≠ 9 ∧
    ProtobufWireAdapter.OnBytesReceived
        ⟨fun _ => [8, 123], fun _ => (true, ⟨some 123, none, none⟩)⟩
        ⟨true, true, ReadState.kMessage, 0, 0⟩ [8, 123] =
      (⟨true, true, ReadState.kPreamble, 0, 0⟩,
        [WireCall.OnMessage ⟨some 123, none, none⟩, WireCall.Receive 1]) ∧
    WireCall.OnError ∉ (ProtobufWireAdapter.OnBytesReceived
        ⟨fun _ => [8, 123], fun _ => (true, ⟨some 123, none, none⟩)⟩
        ⟨true, true, ReadState.kMessage, 0, 0⟩ [8, 123]).2 := by
  refine ⟨by decide, by decide, by decide, by decide⟩

/-- C17, amended: the size of a body chunk is not checked. An adapter with a listener
that has read a preamble of value `n` (at most four bytes with the high bit set, then one
without, one byte per chunk) has requested `n` bytes; a chunk delivered next whose size
differs from `n` and that the parser accepts as the message `e` is not treated as a
violation: the adapter dispatches `e` through `OnMessage`, then issues `Receive(1)` and
waits for a preamble with both preamble fields zero; `OnError` is not called. Chunks
that the parser rejects are left out here. -/
theorem deliver_body_of_other_size (pb : ProtobufRuntime) (a : ProtobufWireAdapter)
    (pre : List Byte) (last : Byte) (data : List Byte) (e : RemoteMessage)
    (hstate : a.read_state_ = ReadState.kPreamble) (hacc : a.preamble_ = 0)
    (hnum : a.preamble_num_bytes_ = 0) (hl : a.listener_ = true)
    (hk : pre.length ≤ 4) (hpre : ∀ b ∈ pre, 128 ≤ b.val) (hlast : last.val < 128)
    (hv : varintValue (pre ++ [last]) < 2 ^ 32)
    (hsize : data.length ≠ varintValue (pre ++ [last]))
    (hparse : pb.ParseFromArray data = (true, e)) :
    a.deliver pb ((pre ++ [last]).map fun b => [b]) =
      ({ a with read_state_ := ReadState.kMessage, preamble_ := 0, preamble_num_bytes_ := 0 },
        List.replicate pre.length (WireCall.Receive 1) ++
          [WireCall.Receive (varintValue (pre ++ [last]))]) ∧
    data.length ≠ varintValue (pre ++ [last]) ∧
    a.deliver pb (((pre ++ [last]).map fun b => [b]) ++ [data]) =
      ({ a with read_state_ := ReadState.kPreamble, preamble_ := 0, preamble_num_bytes_ := 0 },
        List.replicate pre.length (WireCall.Receive 1) ++
          [WireCall.Receive (varintValue (pre ++ [last])), WireCall.OnMessage e,
            WireCall.Receive 1]) ∧
    WireCall.OnError ∉ (a.deliver pb (((pre ++ [last]).map fun b => [b]) ++ [data])).2 := by
  have hhead := deliver_preamble pb a pre last hstate hacc hnum hk hpre hlast hv
  have hbody := OnBytesReceived_message pb
    { a with read_state_ := ReadState.kMessage, preamble_ := 0, preamble_num_bytes_ := 0 }
    data rfl hl
  have hrun : a.deliver pb (((pre ++ [last]).map fun b => [b]) ++ [data]) =
      ({ a with read_state_ := ReadState.kPreamble, preamble_ := 0, preamble_num_bytes_ := 0 },
        List.replicate pre.length (WireCall.Receive 1) ++
          [WireCall.Receive (varintValue (pre ++ [last])), WireCall.OnMessage e,
            WireCall.Receive 1]) := by
    rw [deliver_append, hhead]
    simp only [deliver, hbody, hparse, List.append_nil, List.append_assoc,
      List.singleton_append]
  refine ⟨hhead, hsize, hrun, ?_⟩
  rw [hrun]
  simp [List.mem_replicate]

set_option maxRecDepth 4096 in
theorem deliver_body_of_other_size_witness :
    (⟨true, true, ReadState.kPreamble, 0, 0⟩ : ProtobufWireAdapter).read_state_
      = ReadState.kPreamble ∧
    (⟨true, true, ReadState.kPreamble, 0, 0⟩ : ProtobufWireAdapter).preamble_ = 0 ∧
    (⟨true, true, ReadState.kPreamble, 0, 0⟩ : ProtobufWireAdapter).preamble_num_bytes_ = 0 ∧
    (⟨true, true, ReadState.kPreamble, 0, 0⟩ : ProtobufWireAdapter).listener_ = true ∧
    ([] : List Byte).length ≤ 4 ∧ (∀ b ∈ ([] : List Byte), 128 ≤ b.val) ∧
    (9 : Byte).val < 128 ∧ varintValue ([] ++ [9]) < 2 ^ 32 ∧
    ([8, 123] : List Byte).length ≠ varintValue ([] ++ [9]) ∧
    (fun _ => (true, ⟨some 123, none, none⟩) : List Byte → Bool × RemoteMessage) [8, 123] =
      (true, ⟨some 123, none, none⟩) ∧
    ProtobufWireAdapter.deliver ⟨fun _ => [8, 123], fun _ => (true, ⟨some 123, none, none⟩)⟩
        ⟨true, true, ReadState.kPreamble, 0, 0⟩ [[9], [8, 123]] =
      (⟨true, true, ReadState.kPreamble, 0, 0⟩,
        [WireCall.Receive 9, WireCall.OnMessage ⟨some 123, none, none⟩, WireCall.Receive 1]) :=
  ⟨rfl, rfl, rfl, rfl, by decide, by decide, by decide, by decide, by decide, rfl,
    (deliver_body_of_other_size ⟨fun _ => [8, 123], fun _ => (true, ⟨some 123, none, none⟩)⟩
      ⟨true, true, ReadState.kPreamble, 0, 0⟩ [] 9 [8, 123] ⟨some 123, none, none⟩
      rfl rfl rfl rfl (by decide) (by decide) (by decide) (by decide) (by decide) rfl).2.2.1⟩

/-- C18, what the code does: a body chunk that the parser rejects (`ParseFromArray`
returns false) is not reported. The adapter calls `OnMessage` with the message object as
the parser left it and then `Receive(1)`; `OnError` is not called. -/
theorem OnBytesReceived_parse_failure_ignored (pb : ProtobufRuntime) (a : ProtobufWireAdapter)
    (data : List Byte) (hstate : a.read_state_ = ReadState.kMessage)
    (hl : a.listener_ = true) (hfail : (pb.ParseFromArray data).1 = false) :
    (pb.ParseFromArray data).1 = false ∧
    a.OnBytesReceived pb data =
      ({ a with read_state_ := ReadState.kPreamble },
        [WireCall.OnMessage (pb.ParseFromArray data).2, WireCall.Receive 1]) ∧
    WireCall.OnError ∉ (a.OnBytesReceived pb data).2 := by
  have h := OnBytesReceived_message pb a data hstate hl
  refine ⟨hfail, h, ?_⟩
  rw [h]
  simp

theorem OnBytesReceived_parse_failure_ignored_witness :
    (⟨true, true, ReadState.kMessage, 0, 0⟩ : ProtobufWireAdapter).read_state_
      = ReadState.kMessage ∧
    (⟨true, true, ReadState.kMessage, 0, 0⟩ : ProtobufWireAdapter).listener_ = true ∧
    ((fun _ => (false, ⟨none, none, none⟩) : List Byte → Bool × RemoteMessage) [255]).1
      = false ∧
    ProtobufWireAdapter.OnBytesReceived
        ⟨fun _ => [], fun _ => (false, ⟨none, none, none⟩)⟩
        ⟨true, true, ReadState.kMessage, 0, 0⟩ [255] =
      (⟨true, true, ReadState.kPreamble, 0, 0⟩,
        [WireCall.OnMessage ⟨none, none, none⟩, WireCall.Receive 1]) :=
  ⟨rfl, rfl, rfl,
    (OnBytesReceived_parse_failure_ignored ⟨fun _ => [], fun _ => (false, ⟨none, none, none⟩)⟩
      ⟨true, true, ReadState.kMessage, 0, 0⟩ [255] rfl rfl rfl).2.1⟩

/-- C19, as stated, fails: an adapter that waits for a preamble byte reports an error
for an empty chunk; the deliveries that follow are decoded all the same: a receive
request for 2 bytes is issued, a message is dispatched and the next byte is
requested. -/
theorem error_not_terminal_counterexample :
    ProtobufWireAdapter.OnBytesReceived
        ⟨fun _ => [8, 123], fun _ => (true, ⟨some 123, none, none⟩)⟩
        ⟨true, true, ReadState.kPreamble, 0, 0⟩ [] =
      (⟨true, true, ReadState.kPreamble, 0, 0⟩, [WireCall.OnError]) ∧
    ProtobufWireAdapter.deliver ⟨fun _ => [8, 123], fun _ => (true, ⟨some 123, none, none⟩)⟩
        ⟨true, true, ReadState.kPreamble, 0, 0⟩ [[], [2], [8, 123]] =
      (⟨true, true, ReadState.kPreamble, 0, 0⟩,
        [WireCall.OnError, WireCall.Receive 2, WireCall.OnMessage ⟨some 123, none, none⟩,
          WireCall.Receive 1]) := by
  refine ⟨by decide, by decide⟩

/-- C19, amended: an error is not latched; `OnError` only notifies the listener and
leaves the adapter as it is. After a delivery while idle the adapter is still idle, so
every later sequence of deliveries is answered by `OnError` alone, with no receive
request and no message. After a wrongly sized chunk in the preamble state the adapter is
unchanged and handles the later deliveries as if that chunk had not come; after five
preamble bytes with the high bit set it still waits for preamble bytes. -/
theorem OnError_leaves_adapter_unchanged (pb : ProtobufRuntime) (a : ProtobufWireAdapter)
    (hl : a.listener_ = true) :
    a.OnError = (a, [WireCall.OnError]) ∧
    (a.read_state_ = ReadState.kNone → ∀ chunks : List (List Byte),
      a.deliver pb chunks = (a, List.replicate chunks.length WireCall.OnError)) ∧
    (a.read_state_ = ReadState.kPreamble → ∀ (data : List Byte) (rest : List (List Byte)),
      data.length ≠ 1 →
      a.deliver pb (data :: rest) =
        ((a.deliver pb rest).1, WireCall.OnError :: (a.deliver pb rest).2)) ∧
    (a.read_state_ = ReadState.kPreamble → ∀ b0 b1 b2 b3 b4 : Byte,
      128 ≤ b0.val → 128 ≤ b1.val → 128 ≤ b2.val → 128 ≤ b3.val → 128 ≤ b4.val →
      (a.deliver pb [[b0], [b1], [b2], [b3], [b4]]).1.read_state_ = ReadState.kPreamble) := by
  refine ⟨by simp [ProtobufWireAdapter.OnError, hl], fun hnone => deliver_idle pb a hnone hl,
    ?_, ?_⟩
  · intro hpre data rest hlen
    have h := OnBytesReceived_error_only pb a data hl (Or.inr ⟨hpre, hlen⟩)
    simp [deliver, h]
  · intro hpre b0 b1 b2 b3 b4 h0 h1 h2 h3 h4
    simp only [deliver]
    have s0 := HandlePreambleByte_more_read_state a b0 h0
    rw [← OnBytesReceived_preamble pb a b0 hpre] at s0
    have e0 := s0.trans hpre
    have s1 := HandlePreambleByte_more_read_state (a.OnBytesReceived pb [b0]).1 b1 h1
    rw [← OnBytesReceived_preamble pb _ b1 e0] at s1
    have e1 := s1.trans e0
    have s2 := HandlePreambleByte_more_read_state
      ((a.OnBytesReceived pb [b0]).1.OnBytesReceived pb [b1]).1 b2 h2
    rw [← OnBytesReceived_preamble pb _ b2 e1] at s2
    have e2 := s2.trans e1
    have s3 := HandlePreambleByte_more_read_state
      (((a.OnBytesReceived pb [b0]).1.OnBytesReceived pb [b1]).1.OnBytesReceived pb [b2]).1 b3 h3
    rw [← OnBytesReceived_preamble pb _ b3 e2] at s3
    have e3 := s3.trans e2
    have s4 := HandlePreambleByte_more_read_state
      ((((a.OnBytesReceived pb [b0]).1.OnBytesReceived pb [b1]).1.OnBytesReceived pb
        [b2]).1.OnBytesReceived pb [b3]).1 b4 h4
    rw [← OnBytesReceived_preamble pb _ b4 e3] at s4
    exact s4.trans e3

theorem OnError_leaves_adapter_unchanged_witness :
    ProtobufWireAdapter.new.set_listener.listener_ = true ∧
    ProtobufWireAdapter.new.set_listener.deliver
        ⟨fun _ => [], fun _ => (true, ⟨none, none, none⟩)⟩ [[9], [], [1, 2]] =
      (ProtobufWireAdapter.new.set_listener,
        [WireCall.OnError, WireCall.OnError, WireCall.OnError]) :=
  ⟨rfl,
    (OnError_leaves_adapter_unchanged ⟨fun _ => [], fun _ => (true, ⟨none, none, none⟩)⟩
      ProtobufWireAdapter.new.set_listener rfl).2.1 rfl [[9], [], [1, 2]]⟩

/-- C20: in a run that begins with `Init` and goes on with byte deliveries, `Init` issues
at most one `Receive`, every `OnBytesReceived` call issues at most one `Receive`, and
after any number `j` of deliveries the receive requests issued so far are at most
`j + 1`: requests minus deliveries never exceeds 1. -/
theorem Init_then_deliver_one_outstanding (pb : ProtobufRuntime)
    (a a1 : ProtobufWireAdapter) (calls : List WireCall) (chunks : List (List Byte))
    (hinit : a.Init = some (a1, calls)) :
    receiveCount calls ≤ 1 ∧
    (∀ (b : ProtobufWireAdapter) (data : List Byte),
      receiveCount (b.OnBytesReceived pb data).2 ≤ 1) ∧
    ∀ j, j ≤ chunks.length →
      receiveCount (calls ++ (a1.deliver pb (chunks.take j)).2) ≤ j + 1 := by
  refine ⟨Init_receiveCount a a1 calls hinit, fun b data => OnBytesReceived_receiveCount pb b data,
    ?_⟩
  intro j hj
  have h1 := Init_receiveCount a a1 calls hinit
  have h2 := deliver_receiveCount pb (chunks.take j) a1
  have hlen : (chunks.take j).length = j := by simp [List.length_take, hj]
  rw [receiveCount_append]
  omega

theorem Init_then_deliver_one_outstanding_witness :
    ProtobufWireAdapter.new.set_listener.Init =
      some (⟨true, true, ReadState.kPreamble, 0, 0⟩, [WireCall.Receive 1]) ∧
    receiveCount ([WireCall.Receive 1] ++
      (ProtobufWireAdapter.deliver ⟨fun _ => [8, 123], fun _ => (true, ⟨some 123, none, none⟩)⟩
        ⟨true, true, ReadState.kPreamble, 0, 0⟩ ([[2], [8, 123]].take 2)).2) ≤ 2 + 1 :=
  ⟨rfl,
    (Init_then_deliver_one_outstanding
      ⟨fun _ => [8, 123], fun _ => (true, ⟨some 123, none, none⟩)⟩
      ProtobufWireAdapter.new.set_listener ⟨true, true, ReadState.kPreamble, 0, 0⟩
      [WireCall.Receive 1] [[2], [8, 123]] rfl).2.2 2 (by decide)⟩

/-- C21: for every message whose serialisation is empty, `SendMessage` on an initialised
adapter hands the interface a buffer of exactly one byte, of value 0. -/
theorem SendMessage_empty_body (pb : ProtobufRuntime) (a : ProtobufWireAdapter)
    (message : RemoteMessage) (hinit : a.initialized_ = true)
    (hempty : pb.SerializeToCodedStream message = []) :
    a.SendMessage pb message = some (a, [WireCall.Send [0]]) := by
  have h := SendMessage_buffer pb a message hinit
  have hsize : pb.ByteSize message = 0 := by simp [ProtobufRuntime.ByteSize, hempty]
  rw [h, hsize, hempty]
  rfl

theorem SendMessage_empty_body_witness :
    (⟨true, true, ReadState.kPreamble, 0, 0⟩ : ProtobufWireAdapter).initialized_ = true ∧
    (fun _ => [] : RemoteMessage → List Byte) ⟨none, none, none⟩ = [] ∧
    ProtobufWireAdapter.SendMessage ⟨fun _ => [], fun _ => (true, ⟨none, none, none⟩)⟩
        ⟨true, true, ReadState.kPreamble, 0, 0⟩ ⟨none, none, none⟩ =
      some (⟨true, true, ReadState.kPreamble, 0, 0⟩, [WireCall.Send [0]]) :=
  ⟨rfl, rfl,
    SendMessage_empty_body ⟨fun _ => [], fun _ => (true, ⟨none, none, none⟩)⟩
      ⟨true, true, ReadState.kPreamble, 0, 0⟩ ⟨none, none, none⟩ rfl rfl⟩

/-- C22: `StartSession` on a session whose adapter is already initialised aborts on
`CHECK(!initialized_)` in `Init`, after `set_listener` and before any call on the
interface: no second receive request is issued. In particular a second `StartSession`
after a first one on a new adapter aborts. -/
theorem StartSession_twice_aborts (pb : ProtobufRuntime) (s : DeviceSession)
    (a : ProtobufWireAdapter) (hinit : a.initialized_ = true) :
    a.performAll pb s.StartSession.2 = (none, []) := by
  simp [DeviceSession.StartSession, performAll, perform, ProtobufWireAdapter.Init,
    ProtobufWireAdapter.set_listener, hinit]

theorem StartSession_twice_aborts_witness :
    ProtobufWireAdapter.new.performAll ⟨fun _ => [], fun _ => (true, ⟨none, none, none⟩)⟩
        DeviceSession.new.StartSession.2 =
      (some ⟨true, true, ReadState.kPreamble, 0, 0⟩, [WireCall.Receive 1]) ∧
    (⟨true, true, ReadState.kPreamble, 0, 0⟩ : ProtobufWireAdapter).initialized_ = true ∧
    ProtobufWireAdapter.performAll ⟨fun _ => [], fun _ => (true, ⟨none, none, none⟩)⟩
        ⟨true, true, ReadState.kPreamble, 0, 0⟩ DeviceSession.new.StartSession.2 = (none, []) :=
  ⟨rfl, rfl,
    StartSession_twice_aborts ⟨fun _ => [], fun _ => (true, ⟨none, none, none⟩)⟩
      DeviceSession.new ⟨true, true, ReadState.kPreamble, 0, 0⟩ rfl⟩

/-- C23: each of the seven send operations, with any arguments and in any session
state, invoked on a session whose `ProtobufWireAdapter` has not been initialised
(`StartSession` has not run `Init`), aborts: either on the session's own check of the
sequence number or on `CHECK(initialized())` in `SendMessage`; nothing is handed to the
interface. -/
theorem send_before_start_aborts (pb : ProtobufRuntime) (s : DeviceSession)
    (a : ProtobufWireAdapter) (operation : SendOperation) (hinit : a.initialized_ = false) :
    a.performOutcome pb (s.send operation) = (none, []) := by
  rcases send_cases s operation with h | ⟨s1, message, h⟩
  · rw [h]; rfl
  · rw [h]
    exact performAll_SendMessage_uninitialised pb a message hinit

theorem send_before_start_aborts_witness :
    ProtobufWireAdapter.new.initialized_ = false ∧
    DeviceSession.new.send (SendOperation.Connect "foo" 123) =
      some (DeviceSession.new, [SessionCall.SendMessage
        ⟨none, some ⟨none, none, none, none, some ⟨"foo", 123⟩, none⟩, none⟩]) ∧
    ProtobufWireAdapter.new.performOutcome ⟨fun _ => [], fun _ => (true, ⟨none, none, none⟩)⟩
        (DeviceSession.new.send (SendOperation.Connect "foo" 123)) = (none, []) :=
  ⟨rfl, rfl,
    send_before_start_aborts ⟨fun _ => [], fun _ => (true, ⟨none, none, none⟩)⟩
      DeviceSession.new ProtobufWireAdapter.new (SendOperation.Connect "foo" 123) rfl⟩

/-- C24: in every session state `DeviceSession::OnError` calls the listener's `OnError`
once and nothing else: the session, its ping counter included, is unchanged, no message
is sent, and the call does not reach the adapter, so no receive request is issued. -/
theorem DeviceSession_OnError_forwards (pb : ProtobufRuntime) (s : DeviceSession)
    (a : ProtobufWireAdapter) :
    s.OnError = (s, [SessionCall.OnError]) ∧
    s.OnError.1.ping_counter_ = s.ping_counter_ ∧
    sentMessages s.OnError.2 = [] ∧
    a.performAll pb s.OnError.2 = (some a, []) := by
  refine ⟨rfl, rfl, rfl, rfl⟩

/-- C25: for every sequence of send operations (with `int32_t` arguments) on a session
in any state, every message handed to the adapter either has no sequence number or has
one that is at least 1; 0 is never set, and a negative argument aborts before a message
is built. -/
theorem sendAll_sequence_numbers_positive (s : DeviceSession) (operations : List SendOperation)
    (hfit : ∀ operation ∈ operations, operation.fits_int32 = true) :
    ∀ message ∈ sentMessages (s.sendAll operations).2,
      message.sequence_number = none ∨ ∃ n, message.sequence_number = some n ∧ 1 ≤ n :=
  sendAll_sequence_numbers operations s hfit

theorem sendAll_sequence_numbers_positive_witness :
    (∀ operation ∈ [SendOperation.Ping, SendOperation.Fling "http://foo" 0,
        SendOperation.KeyEvent 26 1, SendOperation.Ping], operation.fits_int32 = true) ∧
    sentMessages (DeviceSession.new.sendAll [SendOperation.Ping,
        SendOperation.Fling "http://foo" 0, SendOperation.KeyEvent 26 1,
        SendOperation.Ping]).2 =
      [⟨some 1, some RequestMessage.default_instance, none⟩,
        ⟨none, some ⟨none, none, none, none, none, some ⟨"http://foo"⟩⟩, none⟩,
        ⟨none, some ⟨some ⟨26, 1⟩, none, none, none, none, none⟩, none⟩,
        ⟨some 2, some RequestMessage.default_instance, none⟩] ∧
    ∀ message ∈ sentMessages (DeviceSession.new.sendAll [SendOperation.Ping,
        SendOperation.Fling "http://foo" 0, SendOperation.KeyEvent 26 1,
        SendOperation.Ping]).2,
      message.sequence_number = none ∨ ∃ n, message.sequence_number = some n ∧ 1 ≤ n :=
  ⟨by decide, by decide,
    sendAll_sequence_numbers_positive DeviceSession.new [SendOperation.Ping,
      SendOperation.Fling "http://foo" 0, SendOperation.KeyEvent 26 1, SendOperation.Ping]
      (by decide)⟩

/-- C26, as stated, fails: after `Init`, six one-byte deliveries with the high bit set
leave the byte counter at 6 (the fifth reports the error, the sixth is counted all the
same). -/
theorem counter_range_counterexample :
    ProtobufWireAdapter.new.set_listener.Init =
      some (⟨true, true, ReadState.kPreamble, 0, 0⟩, [WireCall.Receive 1]) ∧
    ProtobufWireAdapter.deliver ⟨fun _ => [], fun _ => (true, ⟨none, none, none⟩)⟩
        ⟨true, true, ReadState.kPreamble, 0, 0⟩
        [[0x80], [0x80], [0x80], [0x80], [0x80], [0x80]] =
      (⟨true, true, ReadState.kPreamble, 0, 6⟩,
        [WireCall.Receive 1, WireCall.Receive 1, WireCall.Receive 1, WireCall.Receive 1,
          WireCall.OnError, WireCall.OnError]) ∧
    ¬ ((ProtobufWireAdapter.deliver ⟨fun _ => [], fun _ => (true, ⟨none, none, none⟩)⟩
        ⟨true, true, ReadState.kPreamble, 0, 0⟩
        [[0x80], [0x80], [0x80], [0x80], [0x80], [0x80]]).1.preamble_num_bytes_ ≤ 5) := by
  refine ⟨rfl, by decide, by decide⟩

/-- C26, amended: in every adapter state reached from a constructed, not yet
initialised adapter through `Init` and a sequence of byte deliveries each of which
answers a receive request that is still outstanding, the count of bytes consumed for
the current preamble is between 0 and 5. -/
theorem deliver_solicited_counter_range (pb : ProtobufRuntime) (a a1 : ProtobufWireAdapter)
    (calls : List WireCall) (chunks : List (List Byte)) (hreach : Reachable a)
    (hinit : a.Init = some (a1, calls))
    (hsolicited : a1.answersRequests pb (receiveCount calls) chunks = true) :
    0 ≤ (a1.deliver pb chunks).1.preamble_num_bytes_ ∧
    (a1.deliver pb chunks).1.preamble_num_bytes_ ≤ 5 := by
  refine ⟨Nat.zero_le _, ?_⟩
  have huninit : a.initialized_ = false := by
    cases h : a.initialized_
    · rfl
    · simp [ProtobufWireAdapter.Init, h] at hinit
  obtain ⟨hst, _, hnum⟩ := hreach.idle_before_Init huninit
  have hstart : a1 = { a with read_state_ := ReadState.kPreamble, initialized_ := true } ∧
      calls = [WireCall.Receive 1] := by
    simp only [ProtobufWireAdapter.Init, huninit, GetNextMessage, hst, ne_eq,
      not_true_eq_false, if_false, Option.some.injEq, Prod.mk.injEq, Bool.false_eq_true] at hinit
    exact ⟨hinit.1.symm, hinit.2.symm⟩
  obtain ⟨rfl, rfl⟩ := hstart
  exact deliver_counter_range pb chunks _ (receiveCount [WireCall.Receive 1])
    (by simp [receiveCount, requestedSizes]) (by simp only; omega)
    (fun _ => Or.inl ⟨rfl, by simp only; omega⟩) hsolicited

theorem deliver_solicited_counter_range_witness :
    Reachable ProtobufWireAdapter.new.set_listener ∧
    ProtobufWireAdapter.new.set_listener.Init =
      some (⟨true, true, ReadState.kPreamble, 0, 0⟩, [WireCall.Receive 1]) ∧
    ProtobufWireAdapter.answersRequests ⟨fun _ => [], fun _ => (true, ⟨none, none, none⟩)⟩
        ⟨true, true, ReadState.kPreamble, 0, 0⟩ (receiveCount [WireCall.Receive 1])
        [[0x80], [0x80], [0x80], [0x80], [0x80]] = true ∧
    (ProtobufWireAdapter.deliver ⟨fun _ => [], fun _ => (true, ⟨none, none, none⟩)⟩
        ⟨true, true, ReadState.kPreamble, 0, 0⟩
        [[0x80], [0x80], [0x80], [0x80], [0x80]]).1.preamble_num_bytes_ ≤ 5 :=
  ⟨Reachable.set_listener Reachable.new, rfl, by decide,
    (deliver_solicited_counter_range ⟨fun _ => [], fun _ => (true, ⟨none, none, none⟩)⟩
      ProtobufWireAdapter.new.set_listener ⟨true, true, ReadState.kPreamble, 0, 0⟩
      [WireCall.Receive 1] [[0x80], [0x80], [0x80], [0x80], [0x80]]
      (Reachable.set_listener Reachable.new) rfl (by decide)).2⟩

/-- C27: an inbound message whose response has both a data message and a fling result
makes the session call exactly `OnData(type, payload)` and then
`OnFlingResult(succeeded, n)`, with `n` the sequence number or 0 when there is none;
`OnAck` is not called, whatever the sequence number. -/
theorem OnMessage_data_and_fling_result (s : DeviceSession) (sequence_number : Option Nat)
    (request : Option RequestMessage) (type payload : String) (result : FlingResult_Result) :
    s.OnMessage ⟨sequence_number, request, some ⟨some ⟨type, payload⟩, some ⟨result⟩⟩⟩ =
      (s, [SessionCall.OnData type payload,
        SessionCall.OnFlingResult (decide (result = FlingResult_Result.SUCCESS))
          (sequence_number.getD 0)]) := by
  cases sequence_number <;> simp [DeviceSession.OnMessage]

/-- C29: for every finite list of messages, the buffers that `SendMessage` hands to the
interface, concatenated and delivered to an adapter that has just been given a listener
and initialised, in the chunks that adapter asks for (the chunks concatenate to the
stream and their sizes are the sizes of the receive requests, in order), make the
adapter dispatch exactly those messages through `OnMessage`, once each and in the same
order, without any `OnError`, provided parsing inverts serialising on them; at the end
the adapter waits for a preamble and its last request is for 1 byte. The calls for one
message are a function of that message alone. The size of each buffer,
`VarintSize32(n) + n` for a serialised size `n`, is an `int` in the source, so it is
taken below `2 ^ 31`. -/
theorem stream_of_messages_round_trip (pb : ProtobufRuntime) (sender : ProtobufWireAdapter)
    (messages : List RemoteMessage) (hinit : sender.initialized_ = true)
    (hsize : ∀ message ∈ messages,
      VarintSize32 (pb.ByteSize message) + pb.ByteSize message < 2 ^ 31)
    (hinverse : ∀ message ∈ messages,
      pb.ParseFromArray (pb.SerializeToCodedStream message) = (true, message)) :
    ∃ (receiver : ProtobufWireAdapter) (chunks : List (List Byte)) (calls : List WireCall),
      ProtobufWireAdapter.new.set_listener.Init = some (receiver, [WireCall.Receive 1]) ∧
      chunks.flatten =
        sentBytes (sender.handleAll pb (messages.map WireEvent.SendMessage)).2 ∧
      requestedSizes (WireCall.Receive 1 :: calls) = chunks.map List.length ++ [1] ∧
      receiver.deliver pb chunks = (receiver, calls) ∧
      calls = (messages.flatMap fun message =>
        List.replicate (VarintSize32 (pb.ByteSize message) - 1) (WireCall.Receive 1) ++
          [WireCall.Receive (pb.ByteSize message), WireCall.OnMessage message,
            WireCall.Receive 1]) ∧
      dispatchedMessages calls = messages ∧
      WireCall.OnError ∉ calls ∧
      receiver.read_state_ = ReadState.kPreamble := by
  have hsize2 : ∀ message ∈ messages, pb.ByteSize message < 4294967296 := by
    intro m hm
    have := hsize m hm
    norm_num at this
    omega
  refine ⟨⟨true, true, ReadState.kPreamble, 0, 0⟩, messages.flatMap (messageChunks pb), _,
    rfl, ?_, requestedSizes_stream pb messages,
    deliver_all_messageChunks pb ⟨true, true, ReadState.kPreamble, 0, 0⟩ rfl rfl rfl rfl
      messages hsize2 hinverse,
    rfl, dispatchedMessages_stream pb messages, OnError_not_mem_stream pb messages, rfl⟩
  rw [handleAll_SendMessage pb sender hinit messages]
  exact (sentBytes_eq_flatten pb messages).symm

set_option maxRecDepth 4096 in
theorem stream_of_messages_round_trip_witness :
    (⟨true, true, ReadState.kPreamble, 0, 0⟩ : ProtobufWireAdapter).initialized_ = true ∧
    (∀ message ∈ [(⟨some 123, none, none⟩ : RemoteMessage), ⟨some 123, none, none⟩],
      VarintSize32 (ProtobufRuntime.ByteSize
          ⟨fun _ => [8, 123], fun _ => (true, ⟨some 123, none, none⟩)⟩ message) +
        ProtobufRuntime.ByteSize ⟨fun _ => [8, 123], fun _ => (true, ⟨some 123, none, none⟩)⟩
          message < 2 ^ 31) ∧
    (∀ message ∈ [(⟨some 123, none, none⟩ : RemoteMessage), ⟨some 123, none, none⟩],
      (fun _ => (true, ⟨some 123, none, none⟩) : List Byte → Bool × RemoteMessage)
        ((fun _ => [8, 123] : RemoteMessage → List Byte) message) = (true, message)) ∧
    ∃ (receiver : ProtobufWireAdapter) (chunks : List (List Byte)) (calls : List WireCall),
      ProtobufWireAdapter.new.set_listener.Init = some (receiver, [WireCall.Receive 1]) ∧
      chunks.flatten =
        sentBytes (ProtobufWireAdapter.handleAll
          ⟨fun _ => [8, 123], fun _ => (true, ⟨some 123, none, none⟩)⟩
          ⟨true, true, ReadState.kPreamble, 0, 0⟩
          ([(⟨some 123, none, none⟩ : RemoteMessage), ⟨some 123, none, none⟩].map
            WireEvent.SendMessage)).2 ∧
      requestedSizes (WireCall.Receive 1 :: calls) = chunks.map List.length ++ [1] ∧
      receiver.deliver ⟨fun _ => [8, 123], fun _ => (true, ⟨some 123, none, none⟩)⟩
          chunks = (receiver, calls) ∧
      calls = ([(⟨some 123, none, none⟩ : RemoteMessage), ⟨some 123, none, none⟩].flatMap
        fun message =>
        List.replicate (VarintSize32 (ProtobufRuntime.ByteSize
            ⟨fun _ => [8, 123], fun _ => (true, ⟨some 123, none, none⟩)⟩ message) - 1)
            (WireCall.Receive 1) ++
          [WireCall.Receive (ProtobufRuntime.ByteSize
            ⟨fun _ => [8, 123], fun _ => (true, ⟨some 123, none, none⟩)⟩ message),
            WireCall.OnMessage message,
            WireCall.Receive 1]) ∧
      dispatchedMessages calls =
        [(⟨some 123, none, none⟩ : RemoteMessage), ⟨some 123, none, none⟩] ∧
      WireCall.OnError ∉ calls ∧
      receiver.read_state_ = ReadState.kPreamble :=
  ⟨rfl, by decide, by decide,
    stream_of_messages_round_trip
      ⟨fun _ => [8, 123], fun _ => (true, ⟨some 123, none, none⟩)⟩
      ⟨true, true, ReadState.kPreamble, 0, 0⟩
      [⟨some 123, none, none⟩, ⟨some 123, none, none⟩] rfl (by decide) (by decide)⟩

/-- C30: four bytes with the high bit set followed by a fifth byte in `0x10..0x7F`,
delivered one per chunk at the start of the preamble state, are accepted: the adapter
reports no error, requests one byte after each of the first four and then requests the
value `sum of (b_i & 0x7F) * 128 ^ i` reduced modulo `2 ^ 32`, a value of more than 32
bits whose bits from 32 up (bits 4 to 6 of the fifth byte) are dropped. -/
theorem deliver_preamble_over_32_bits (pb : ProtobufRuntime) (a : ProtobufWireAdapter)
    (b0 b1 b2 b3 b4 : Byte) (hstate : a.read_state_ = ReadState.kPreamble)
    (hacc : a.preamble_ = 0) (hnum : a.preamble_num_bytes_ = 0)
    (h0 : b0.val &&& 0x80 ≠ 0) (h1 : b1.val &&& 0x80 ≠ 0) (h2 : b2.val &&& 0x80 ≠ 0)
    (h3 : b3.val &&& 0x80 ≠ 0) (hlow : 0x10 ≤ b4.val) (hhigh : b4.val ≤ 0x7F) :
    a.deliver pb [[b0], [b1], [b2], [b3], [b4]] =
      ({ a with read_state_ := ReadState.kMessage, preamble_ := 0, preamble_num_bytes_ := 0 },
        [WireCall.Receive 1, WireCall.Receive 1, WireCall.Receive 1, WireCall.Receive 1,
          WireCall.Receive (varintValue [b0, b1, b2, b3, b4] % 2 ^ 32)]) ∧
    2 ^ 32 ≤ varintValue [b0, b1, b2, b3, b4] := by
  have hge : ∀ b : Byte, b.val &&& 0x80 ≠ 0 → 128 ≤ b.val := by
    intro b hb
    have h := byte_and_80 b
    by_contra hlt
    exact hb (h.mpr (by omega))
  refine ⟨deliver_five_byte_preamble pb a b0 b1 b2 b3 b4 hstate hacc hnum (hge _ h0) (hge _ h1)
    (hge _ h2) (hge _ h3) (by omega), ?_⟩
  have hsplit := varintValue_append_single [b0, b1, b2, b3] b4
  have e : [b0, b1, b2, b3, b4] = [b0, b1, b2, b3] ++ [b4] := rfl
  have h7 : b4.val &&& 0x7F = b4.val % 128 := and_7F b4.val
  rw [e, hsplit, h7]
  norm_num
  omega

set_option maxRecDepth 4096 in
theorem deliver_preamble_over_32_bits_witness :
    (⟨true, true, ReadState.kPreamble, 0, 0⟩ : ProtobufWireAdapter).read_state_
      = ReadState.kPreamble ∧
    (⟨true, true, ReadState.kPreamble, 0, 0⟩ : ProtobufWireAdapter).preamble_ = 0 ∧
    (⟨true, true, ReadState.kPreamble, 0, 0⟩ : ProtobufWireAdapter).preamble_num_bytes_ = 0 ∧
    (0x85 : Byte).val &&& 0x80 ≠ 0 ∧ (0x80 : Byte).val &&& 0x80 ≠ 0 ∧
    0x10 ≤ (0x7F : Byte).val ∧ (0x7F : Byte).val ≤ 0x7F ∧
    ProtobufWireAdapter.deliver ⟨fun _ => [], fun _ => (true, ⟨none, none, none⟩)⟩
        ⟨true, true, ReadState.kPreamble, 0, 0⟩ [[0x85], [0x80], [0x80], [0x80], [0x7F]] =
      (⟨true, true, ReadState.kMessage, 0, 0⟩,
        [WireCall.Receive 1, WireCall.Receive 1, WireCall.Receive 1, WireCall.Receive 1,
          WireCall.Receive 4026531845]) :=
  ⟨rfl, rfl, rfl, by decide, by decide, by decide, by decide,
    (deliver_preamble_over_32_bits ⟨fun _ => [], fun _ => (true, ⟨none, none, none⟩)⟩
      ⟨true, true, ReadState.kPreamble, 0, 0⟩ 0x85 0x80 0x80 0x80 0x7F rfl rfl rfl
      (by decide) (by decide) (by decide) (by decide) (by decide) (by decide)).1⟩

/-- C31: an inbound message that carries a request (of any content) and no response is
classified by its sequence number alone: the session calls `OnAck` once, and nothing
else, when the sequence number `n` is not 0, and calls nothing when the sequence number
is absent or 0; the calls are the same for every request, so no part of the request
reaches the listener. -/
theorem OnMessage_request_only (s : DeviceSession) (n : Nat) (request : RequestMessage)
    (hn : n ≠ 0) :
    s.OnMessage ⟨some n, some request, none⟩ = (s, [SessionCall.OnAck]) ∧
    s.OnMessage ⟨none, some request, none⟩ = (s, []) ∧
    s.OnMessage ⟨some 0, some request, none⟩ = (s, []) ∧
    ∀ (sequence_number : Option Nat) (other : RequestMessage),
      s.OnMessage ⟨sequence_number, some other, none⟩ =
        s.OnMessage ⟨sequence_number, some request, none⟩ := by
  refine ⟨?_, ?_, ?_, fun _ _ => rfl⟩ <;>
    simp [DeviceSession.OnMessage, ResponseMessage.default_instance, hn]

theorem OnMessage_request_only_witness :
    (123 : Nat) ≠ 0 ∧
    DeviceSession.OnMessage DeviceSession.new
        ⟨some 123, some ⟨none, none, none, none, some ⟨"foo", 0⟩, none⟩, none⟩ =
      (DeviceSession.new, [SessionCall.OnAck]) ∧
    DeviceSession.OnMessage DeviceSession.new
        ⟨none, some ⟨none, none, none, none, some ⟨"foo", 0⟩, none⟩, none⟩ =
      (DeviceSession.new, []) :=
  ⟨by decide,
    (OnMessage_request_only DeviceSession.new 123
      ⟨none, none, none, none, some ⟨"foo", 0⟩, none⟩ (by decide)).1,
    (OnMessage_request_only DeviceSession.new 123
      ⟨none, none, none, none, some ⟨"foo", 0⟩, none⟩ (by decide)).2.1⟩

end anymote
